import Mathlib

/-!
# Verification of the filtering / aggregation core of `batting_bowling.py`

The program is an interactive dashboard over two tabular datasets (bowling
and batting records).  Its computational core is:

* `filter_bowling_data` / `filter_batting_data`: boolean-mask filtering of a
  table by an optional case-insensitive name substring, an optional team
  membership list, and up to two optional inclusive numeric ranges;
* `nlargest` (pandas `DataFrame.nlargest`): top-n rows by a numeric column;
* `corr` (pandas `DataFrame.corr`): Pearson correlation matrix with pairwise
  deletion of missing values;
* `compare_team_performance`: inner merge on three key columns followed by a
  difference column for a chosen metric.

We embed tables as ordered lists of rows over a `Value` type that has a
missing value `na` (pandas `NaN`), strings and exact rationals (idealising
floats), and translate the pandas calls by their documented semantics:
comparisons with `na` are false, `isin` of `na` is false, `str.contains`
over a missing/non-string entry poisons the mask (pandas raises), a missing
column raises `KeyError` (our `Except.error`), `nlargest` drops rows whose
key is missing and breaks ties by original position, `corr` uses
pairwise-complete observations and yields a missing entry whenever a
variance term vanishes, and `merge(how="inner")` keeps exactly the key
matches, suffixing overlapping right-hand columns.
-/

/-- A cell of a table: missing (`NaN`), a string, or an (exact) number. -/
inductive Value where
  | na : Value
  | str (s : String) : Value
  | num (q : Rat) : Value
deriving DecidableEq, Repr

/-- A table: named columns and rows of cells, row i's cells aligned with
the column list. -/
structure Table where
  cols : List String
  rows : List (List Value)
deriving DecidableEq, Repr

/-- Index of a column name in a column list (pandas column lookup). -/
def idxOfCol : List String → String → Option Nat
  | [], _ => none
  | c :: cs, d => if c = d then some 0 else (idxOfCol cs d).map (· + 1)

/-- Column lookup on a table, failing like pandas `KeyError` when the
column does not exist. -/
def colIdx (t : Table) (c : String) : Except String Nat :=
  match idxOfCol t.cols c with
  | some i => Except.ok i
  | none => Except.error ("missing column: " ++ c)

/-- Total variant of cell lookup by column name (missing column or short
row reads as `na`); used to state specifications. -/
def lookupVal (cols : List String) (row : List Value) (c : String) : Value :=
  match idxOfCol cols c with
  | some i => row.getD i Value.na
  | none => Value.na

/-- Python truthiness of the optional `player_name` argument:
`None` and `""` are falsy. -/
def truthyName : Option String → Bool
  | none => false
  | some s => !s.isEmpty

/-- Python truthiness of the optional `teams` argument:
`None` and the empty list are falsy. -/
def truthyTeams : Option (List String) → Bool
  | none => false
  | some l => !l.isEmpty

/-- The metacharacters of Python regular expressions other than `.`: a
pattern containing one of these engages regex machinery (quantifiers,
classes, groups, anchors, alternation, escapes) that this embedding does
not model. -/
def regexMetaChars : List Char :=
  ['^', '$', '*', '+', '?', '\x7b', '\x7d', '[', ']', '\\', '|', '(', ')']

/-- Does the pattern stay inside the regex fragment modelled by this
embedding: no metacharacter other than possibly `.`? -/
def patModelled (pat : String) : Bool :=
  pat.data.all (fun p => !(regexMetaChars.contains p))

/-- Is the pattern fully literal: no regex metacharacter at all, `.`
included?  On such patterns a regex search is exactly a substring
search. -/
def patLiteral (pat : String) : Bool :=
  patModelled pat && !(pat.data.contains '.')

/-- One pattern character against one subject character under
`re.IGNORECASE`: `.` matches every character except a newline; any other
(non-metacharacter) pattern character matches case-insensitively. -/
def patCharMatch (p c : Char) : Bool :=
  if p = '.' then !(c = '\n') else p.toLower == c.toLower

/-- Does the pattern match a prefix of the subject (both as character
lists, pattern second)? -/
def reStartsWith : List Char → List Char → Bool
  | _, [] => true
  | [], _ :: _ => false
  | c :: cs, p :: ps => patCharMatch p c && reStartsWith cs ps

/-- `re.search` over the modelled fragment: does the pattern match at
some position of the subject? -/
def reSearch : List Char → List Char → Bool
  | [], pat => pat.isEmpty
  | s@(_ :: cs), pat => reStartsWith s pat || reSearch cs pat

/-- Spec-side literal reading of a prefix match: the pattern occurs
verbatim (case-insensitively) at the front of the subject. -/
def substrStartsWith : List Char → List Char → Bool
  | _, [] => true
  | [], _ :: _ => false
  | c :: cs, p :: ps => p.toLower == c.toLower && substrStartsWith cs ps

/-- Spec-side literal reading of containment: the pattern occurs verbatim
(case-insensitively) somewhere in the subject. -/
def substrContain : List Char → List Char → Bool
  | [], pat => pat.isEmpty
  | s@(_ :: cs), pat => substrStartsWith s pat || substrContain cs pat

/-- Case-insensitive literal substring test on strings — the reading the
specification asserts of the name criterion.  It coincides with the
program's regex search exactly on literal patterns (`reSearch_eq_substr`)
and differs on patterns such as `"."`. -/
def ciSubstr (s pat : String) : Bool :=
  substrContain s.data pat.data

/-- The name mask on one cell.  pandas `str.contains(pat, case=False)`
performs a case-insensitive **regex** search (`regex=True` is the
default); the embedding models the fragment whose only metacharacter is
`.` and makes the mask fail on patterns outside the fragment, so that no
theorem speaks about regex constructs the model does not implement.  A
missing or numeric cell poisons the boolean mask (pandas raises when
masking with a non-boolean / NA value produced by `.str.contains`). -/
def maskNameVal (pat : String) (v : Value) : Except String Bool :=
  if patModelled pat then
    match v with
    | Value.str s => Except.ok (reSearch s.data pat.data)
    | _ => Except.error "Name filter: non-string value in Name column"
  else Except.error "Name filter: regex pattern outside the modelled fragment"

/-- pandas `Series.isin(teams)` on one cell: `na` and numbers are simply
not members of a list of team names. -/
def valIsin (v : Value) (teams : List String) : Bool :=
  match v with
  | Value.str s => teams.contains s
  | _ => false

/-- The inclusive-range mask on one cell: numeric comparison; `na`
compares false on both sides (pandas `NaN >= x` is `False`); comparing a
string column against numbers raises. -/
def maskRangeVal (lo hi : Rat) : Value → Except String Bool
  | Value.num q => Except.ok (decide (lo ≤ q) && decide (q ≤ hi))
  | Value.na => Except.ok false
  | Value.str _ => Except.error "range filter: non-numeric value"

/-- Filter a list by a fallible boolean mask, propagating the first
error (pandas evaluates the whole mask before indexing; the observable
error/success outcome is the same). -/
def filterME (p : α → Except String Bool) : List α → Except String (List α)
  | [] => Except.ok []
  | a :: as => do
    let b ← p a
    let rest ← filterME p as
    pure (if b then a :: rest else rest)

/-- One masking step `data = data[data[nameCol].str.contains(pat, case=False)]`. -/
def stepName (nameCol pat : String) (t : Table) : Except String Table := do
  let i ← colIdx t nameCol
  let rs ← filterME (fun r => maskNameVal pat (r.getD i Value.na)) t.rows
  pure ⟨t.cols, rs⟩

/-- One masking step `data = data[data[teamCol].isin(teams)]`. -/
def stepTeams (teamCol : String) (teams : List String) (t : Table) :
    Except String Table := do
  let i ← colIdx t teamCol
  pure ⟨t.cols, t.rows.filter (fun r => valIsin (r.getD i Value.na) teams)⟩

/-- One masking step `data = data[(data[col] >= lo) & (data[col] <= hi)]`. -/
def stepRange (col : String) (lo hi : Rat) (t : Table) : Except String Table := do
  let i ← colIdx t col
  let rs ← filterME (fun r => maskRangeVal lo hi (r.getD i Value.na)) t.rows
  pure ⟨t.cols, rs⟩

/-- `if player_name: data = data[data["Name"].str.contains(...)]` —
the truthiness-guarded name step. -/
def optName (nameCol : String) (pn : Option String) (t : Table) :
    Except String Table :=
  if truthyName pn then stepName nameCol (pn.getD "") t else pure t

/-- `if teams: data = data[data["2023_Team"].isin(teams)]` —
the truthiness-guarded team step. -/
def optTeams (teamCol : String) (tms : Option (List String)) (t : Table) :
    Except String Table :=
  if truthyTeams tms then stepTeams teamCol (tms.getD []) t else pure t

/-- `if r: data = data[(data[col] >= r[0]) & (data[col] <= r[1])]` —
the truthiness-guarded range step (a supplied pair is always truthy). -/
def optRange (col : String) (ro : Option (Rat × Rat)) (t : Table) :
    Except String Table :=
  match ro with
  | some (lo, hi) => stepRange col lo hi t
  | none => pure t

/-- The shared body of `filter_bowling_data` and `filter_batting_data`
(the two Python functions are textually identical up to the names of the
two range columns): four truthiness-guarded masking steps in sequence. -/
def filterData (nameCol teamCol colA colB : String) (data : Table)
    (player_name : Option String) (teams : Option (List String))
    (rangeA rangeB : Option (Rat × Rat)) : Except String Table := do
  let data ← optName nameCol player_name data
  let data ← optTeams teamCol teams data
  let data ← optRange colA rangeA data
  let data ← optRange colB rangeB data
  pure data

/-- `filter_bowling_data(data, player_name, teams, econ_range, avg_range)`. -/
def filter_bowling_data (data : Table) (player_name : Option String)
    (teams : Option (List String)) (econ_range avg_range : Option (Rat × Rat)) :
    Except String Table :=
  filterData "Name" "2023_Team" "Economy" "Average" data player_name teams
    econ_range avg_range

/-- `filter_batting_data(data, player_name, teams, sr_range, hs_range)`. -/
def filter_batting_data (data : Table) (player_name : Option String)
    (teams : Option (List String)) (sr_range hs_range : Option (Rat × Rat)) :
    Except String Table :=
  filterData "Name" "2023_Team" "Strike_rate" "Highest_score" data player_name
    teams sr_range hs_range

/-! ## Spec-side row-satisfaction predicate and well-typedness checks -/

/-- Spec-side reading of the name criterion on one row: the pattern
occurs case-insensitively as a literal substring of the `Name` cell. -/
def nameMatches (v : Value) (pat : String) : Bool :=
  match v with
  | Value.str s => ciSubstr s pat
  | _ => false

/-- Spec-side reading of an inclusive numeric range criterion on one row;
a missing value satisfies no range. -/
def inRange (v : Value) (lo hi : Rat) : Bool :=
  match v with
  | Value.num q => decide (lo ≤ q) && decide (q ≤ hi)
  | _ => false

/-- The name constraint on one row, trivially true when absent/falsy. -/
def critName (nameCol : String) (pn : Option String) (cols : List String)
    (row : List Value) : Bool :=
  if truthyName pn then nameMatches (lookupVal cols row nameCol) (pn.getD "")
  else true

/-- The team constraint on one row, trivially true when absent/falsy. -/
def critTeams (teamCol : String) (tms : Option (List String))
    (cols : List String) (row : List Value) : Bool :=
  if truthyTeams tms then valIsin (lookupVal cols row teamCol) (tms.getD [])
  else true

/-- A numeric range constraint on one row, trivially true when absent. -/
def critRange (col : String) (ro : Option (Rat × Rat)) (cols : List String)
    (row : List Value) : Bool :=
  match ro with
  | some (lo, hi) => inRange (lookupVal cols row col) lo hi
  | none => true

/-- A row satisfies all supplied criteria (logical AND); an absent or
falsy criterion constrains nothing. -/
def satisfies (nameCol teamCol colA colB : String) (pn : Option String)
    (tms : Option (List String)) (ra rb : Option (Rat × Rat))
    (cols : List String) (row : List Value) : Bool :=
  critName nameCol pn cols row &&
  (critTeams teamCol tms cols row &&
  (critRange colA ra cols row && critRange colB rb cols row))

/-- Is the cell a string? -/
def isStrB : Value → Bool
  | Value.str _ => true
  | _ => false

/-- Is the cell non-string (number or missing)? -/
def notStrB : Value → Bool
  | Value.str _ => false
  | _ => true

/-- The column exists in the table. -/
def colPresentB (t : Table) (c : String) : Bool :=
  (idxOfCol t.cols c).isSome

/-- The column exists and all of its cells are strings. -/
def colStrB (t : Table) (c : String) : Bool :=
  colPresentB t c && t.rows.all (fun r => isStrB (lookupVal t.cols r c))

/-- The column exists and none of its cells is a string (numeric column,
possibly with missing entries). -/
def colNumB (t : Table) (c : String) : Bool :=
  colPresentB t c && t.rows.all (fun r => notStrB (lookupVal t.cols r c))

/-! ## pandas `DataFrame.nlargest` -/

/-- The rank order used by `nlargest` on position-tagged keyed rows
`(cell value, original index, row)`: larger cell values first, ties by
smaller (earlier) original index (`keep="first"`). -/
def rankOrd (a b : Rat × Nat × List Value) : Prop :=
  b.1 < a.1 ∨ (a.1 = b.1 ∧ a.2.1 ≤ b.2.1)

instance rankOrdDec : DecidableRel rankOrd := fun a b =>
  inferInstanceAs (Decidable (b.1 < a.1 ∨ (a.1 = b.1 ∧ a.2.1 ≤ b.2.1)))

instance rankOrdTotal : IsTotal (Rat × Nat × List Value) rankOrd := ⟨by
  intro a b
  unfold rankOrd
  rcases lt_trichotomy a.1 b.1 with h | h | h
  · exact Or.inr (Or.inl h)
  · rcases le_total a.2.1 b.2.1 with h2 | h2
    · exact Or.inl (Or.inr ⟨h, h2⟩)
    · exact Or.inr (Or.inr ⟨h.symm, h2⟩)
  · exact Or.inl (Or.inl h)⟩

instance rankOrdTrans : IsTrans (Rat × Nat × List Value) rankOrd := ⟨by
  intro a b c hab hbc
  unfold rankOrd at hab hbc ⊢
  rcases hab with h1 | ⟨h1, h1i⟩ <;> rcases hbc with h2 | ⟨h2, h2i⟩
  · exact Or.inl (h2.trans h1)
  · exact Or.inl (by rw [← h2]; exact h1)
  · exact Or.inl (by rw [h1]; exact h2)
  · exact Or.inr ⟨h1.trans h2, h1i.trans h2i⟩⟩

/-- The position-tagged numeric keys of column `i`: one entry
`(value, original index, row)` per row whose cell at `i` is a number;
rows with a missing cell contribute nothing. -/
def keyedRows (rows : List (List Value)) (i : Nat) :
    List (Rat × Nat × List Value) :=
  (List.enum rows).filterMap (fun p =>
    match p.2.getD i Value.na with
    | Value.num q => some (q, p.1, p.2)
    | _ => none)

/-- pandas `DataFrame.nlargest(n, col)` (used for `top_wicket_takers` and
`top_run_scorers`): the rows whose `col` cell is numeric, sorted by
descending value with ties in original row order (`keep="first"`),
truncated to the first `n`; rows with a missing cell in `col` are dropped
entirely; a non-numeric (string-typed) cell raises. -/
def nlargest (t : Table) (n : Nat) (col : String) : Except String Table := do
  let i ← colIdx t col
  if t.rows.all (fun r => notStrB (r.getD i Value.na)) then
    pure ⟨t.cols,
      ((List.insertionSort rankOrd (keyedRows t.rows i)).take n).map
        (fun e => e.2.2)⟩
  else Except.error ("nlargest: non-numeric column " ++ col)

/-! ## pandas `merge(how="inner")` and `compare_team_performance` -/

/-- Is the cell a number? -/
def isNumB : Value → Bool
  | Value.num _ => true
  | _ => false

/-- Indices of the `on=` key columns; pandas raises when a key column is
absent from a frame. -/
def keyIdxs (t : Table) : List String → Except String (List Nat)
  | [] => Except.ok []
  | k :: ks => do
    let i ← colIdx t k
    let rest ← keyIdxs t ks
    pure (i :: rest)

/-- The key tuple of a row at the given column indices. -/
def rowKey (is : List Nat) (row : List Value) : List Value :=
  is.map (fun i => row.getD i Value.na)

/-- The right frame's non-key columns with their positions, in order
(position counting starts at `n`). -/
def keepColsFrom (keys : List String) : Nat → List String → List (Nat × String)
  | _, [] => []
  | n, c :: cs =>
    if keys.contains c then keepColsFrom keys (n + 1) cs
    else (n, c) :: keepColsFrom keys (n + 1) cs

/-- The right frame's non-key columns with their positions. -/
def keepCols (cols keys : List String) : List (Nat × String) :=
  keepColsFrom keys 0 cols

/-- Right-hand column renaming: a non-key right column whose name also
appears on the left gets the suffix (pandas `suffixes=("", sfx)`). -/
def renameCol (leftCols : List String) (sfx c : String) : String :=
  if leftCols.contains c then c ++ sfx else c

/-- pandas `a.merge(b, how="inner", on=keys, suffixes=("", sfx))`: the
output columns are the left columns followed by the right non-key columns
(renamed when clashing with a left column); the output rows are all pairs
of a left row and a right row with equal key tuples, each pair laid out as
the left row followed by the right row's non-key cells, in left-major
order. -/
def mergeInner (a b : Table) (keys : List String) (sfx : String) :
    Except String Table := do
  let ia ← keyIdxs a keys
  let ib ← keyIdxs b keys
  pure ⟨a.cols ++
      (keepCols b.cols keys).map (fun p => renameCol a.cols sfx p.2),
    a.rows.flatMap (fun ra =>
      (b.rows.filter (fun rb => decide (rowKey ib rb = rowKey ia ra))).map
        (fun rb =>
          ra ++ (keepCols b.cols keys).map (fun p => rb.getD p.1 Value.na)))⟩

/-- Cell subtraction: number minus number is a number, anything involving
a missing cell is missing, strings raise (pandas `TypeError`). -/
def valSub : Value → Value → Except String Value
  | Value.num x, Value.num y => Except.ok (Value.num (x - y))
  | Value.na, Value.num _ => Except.ok Value.na
  | Value.num _, Value.na => Except.ok Value.na
  | Value.na, Value.na => Except.ok Value.na
  | _, _ => Except.error "subtraction on non-numeric values"

/-- Fallible map, propagating the first error. -/
def mapME (f : α → Except String β) : List α → Except String (List β)
  | [] => Except.ok []
  | a :: as => do
    let b ← f a
    let rest ← mapME f as
    pure (b :: rest)

/-- `compare_team_performance(new_data, original_data, compare_metric)`:
inner-merge the two tables on the three identity columns with suffixes
`("", "_2022")`, then append a `<metric>_Difference` column equal to the
left metric column minus the suffixed right metric column. -/
def compare_team_performance (new_data original_data : Table)
    (compare_metric : String) : Except String Table := do
  let merged ← mergeInner new_data original_data
    ["2022_Team", "2023_Team", "Country"] "_2022"
  let i ← colIdx merged compare_metric
  let j ← colIdx merged (compare_metric ++ "_2022")
  let rs ← mapME (fun r => do
    let d ← valSub (r.getD i Value.na) (r.getD j Value.na)
    pure (r ++ [d])) merged.rows
  pure ⟨merged.cols ++ [compare_metric ++ "_Difference"], rs⟩

/-- Spec-side key agreement of a left and a right row on the join
columns. -/
def keysMatch (keys acols bcols : List String) (ra rb : List Value) : Bool :=
  keys.all (fun k => decide (lookupVal acols ra k = lookupVal bcols rb k))

/-! ## pandas `DataFrame.corr` (Pearson, pairwise-complete observations) -/

/-- Sum of a list of rationals. -/
def rsum (l : List Rat) : Rat := l.foldr (· + ·) 0

/-- Arithmetic mean (0 for the empty list, as 0/0 = 0 in `Rat`). -/
def rmean (l : List Rat) : Rat := rsum l / (l.length : Rat)

/-- Centered sum of squares `Σ (x - mean)²` — the unnormalised variance
term pandas divides by. -/
def svarOf (xs : List Rat) : Rat :=
  rsum (xs.map (fun x => (x - rmean xs) * (x - rmean xs)))

/-- Centered cross sum `Σ (x - mean xs)(y - mean ys)` over paired
observations. -/
def sxyOf (ps : List (Rat × Rat)) : Rat :=
  rsum (ps.map (fun p => (p.1 - rmean (ps.map Prod.fst)) *
    (p.2 - rmean (ps.map Prod.snd))))

/-- The numeric cells of a column, in order (missing cells dropped). -/
def numsOf (l : List Value) : List Rat :=
  l.filterMap (fun v =>
    match v with
    | Value.num q => some q
    | _ => none)

/-- Pairwise-complete observations of two equally long cell columns:
the pairs of positions where both cells are numbers (pandas `corr`
excludes a position as soon as either side is NaN). -/
def pairComplete : List Value → List Value → List (Rat × Rat)
  | Value.num a :: xs, Value.num b :: ys => (a, b) :: pairComplete xs ys
  | _ :: xs, _ :: ys => pairComplete xs ys
  | _, _ => []

/-- One Pearson entry over paired observations, represented exactly: the
floating-point value pandas shows for a represented pair `(c, p)` is
`c / sqrt p` (see `corrDenote`); `none` is pandas `NaN`, produced when
there are no complete observations or a variance term vanishes (zero
variance, including n ≤ 1). -/
def corrEntryPairs (ps : List (Rat × Rat)) : Option (Rat × Rat) :=
  if ps.isEmpty then none
  else if svarOf (ps.map Prod.fst) = 0 ∨ svarOf (ps.map Prod.snd) = 0 then
    none
  else some (sxyOf ps, svarOf (ps.map Prod.fst) * svarOf (ps.map Prod.snd))

/-- The cells of a named column (total; `[]` when the column is absent). -/
def colValsD (t : Table) (c : String) : List Value :=
  match idxOfCol t.cols c with
  | some i => t.rows.map (fun r => r.getD i Value.na)
  | none => []

/-- One entry of `filtered_data[cols].corr()`: fails on a string-typed
column (pandas raises on object dtype), otherwise the pairwise-complete
Pearson entry. -/
def corrEntry (t : Table) (c1 c2 : String) :
    Except String (Option (Rat × Rat)) := do
  let i ← colIdx t c1
  let j ← colIdx t c2
  if (t.rows.map (fun r => r.getD i Value.na)).all notStrB &&
      (t.rows.map (fun r => r.getD j Value.na)).all notStrB then
    pure (corrEntryPairs (pairComplete
      (t.rows.map (fun r => r.getD i Value.na))
      (t.rows.map (fun r => r.getD j Value.na))))
  else Except.error "corr: non-numeric column"

/-- `filtered_data[sel].corr()`: the square matrix of pairwise Pearson
entries over the selected columns. -/
def corrMatrix (t : Table) (sel : List String) :
    Except String (List (List (Option (Rat × Rat)))) :=
  mapME (fun c1 => mapME (fun c2 => corrEntry t c1 c2) sel) sel

/-- The real number denoted by a represented correlation entry:
`c / sqrt p`. -/
noncomputable def corrDenote (e : Rat × Rat) : Real :=
  (e.1 : Real) / Real.sqrt (e.2 : Real)

/-! ## Concrete sample tables (used to instantiate hypotheses) -/

/-- A small concrete table holding both datasets' filter columns. -/
def sampleTable : Table :=
  ⟨["Name", "2023_Team", "Economy", "Average", "Strike_rate", "Highest_score"],
   [[Value.str "Rashid Khan", Value.str "GT", Value.num 8, Value.num 20,
     Value.num 120, Value.num 40],
    [Value.str "Mohammed Shami", Value.str "GT", Value.num 9, Value.num 24,
     Value.num 130, Value.num 10],
    [Value.str "Trent Boult", Value.str "RR", Value.num 8, Value.num 30,
     Value.num 110, Value.num 5]]⟩

/-- A concrete table whose second row has missing numeric cells. -/
def sampleTableNA : Table :=
  ⟨["Name", "2023_Team", "Economy", "Average", "Strike_rate", "Highest_score"],
   [[Value.str "A", Value.str "X", Value.num 6, Value.num 20,
     Value.num 100, Value.num 30],
    [Value.str "B", Value.str "Y", Value.na, Value.num 40,
     Value.na, Value.num 50]]⟩

/-- Concrete left table for the season comparison. -/
def sampleCmpA : Table :=
  ⟨["2022_Team", "2023_Team", "Country", "Wickets"],
   [[Value.str "MI", Value.str "GT", Value.str "India", Value.num 20],
    [Value.str "CSK", Value.str "RR", Value.str "NZ", Value.num 15]]⟩

/-- Concrete right table for the season comparison. -/
def sampleCmpB : Table :=
  ⟨["2022_Team", "2023_Team", "Country", "Wickets"],
   [[Value.str "MI", Value.str "GT", Value.str "India", Value.num 12]]⟩

theorem lookupVal_eq_getD {cols : List String} {c : String} {i : Nat}
    (h : idxOfCol cols c = some i) (row : List Value) :
    lookupVal cols row c = row.getD i Value.na := by
  unfold lookupVal
  rw [h]

@[simp] theorem exceptBindOk {α β ε : Type} (a : α) (f : α → Except ε β) :
    (Except.ok a >>= f) = f a := rfl

@[simp] theorem exceptBindErr {α β ε : Type} (e : ε) (f : α → Except ε β) :
    ((Except.error e : Except ε α) >>= f) = Except.error e := rfl

@[simp] theorem exceptPureEq {α ε : Type} (a : α) :
    (pure a : Except ε α) = Except.ok a := rfl

@[simp] theorem exceptBindOkB {α β ε : Type} (a : α) (f : α → Except ε β) :
    Except.bind (Except.ok a) f = f a := rfl

theorem filterME_ok {α : Type} {p : α → Except String Bool} {q : α → Bool} :
    ∀ {l : List α}, (∀ a ∈ l, p a = Except.ok (q a)) →
      filterME p l = Except.ok (l.filter q) := by
  intro l
  induction l with
  | nil => intro h; rfl
  | cons a as ih =>
    intro h
    have ha := h a (by simp)
    have hrest := ih (fun x hx => h x (by simp [hx]))
    simp only [filterME, ha, hrest, List.filter_cons]
    cases hq : q a <;> simp [hq, Except.bind]

theorem patLiteral_modelled {pat : String} (h : patLiteral pat = true) :
    patModelled pat = true := by
  unfold patLiteral at h
  rw [Bool.and_eq_true] at h
  exact h.1

theorem patLiteral_no_dot {pat : String} (h : patLiteral pat = true) :
    ∀ p ∈ pat.data, p ≠ '.' := by
  unfold patLiteral at h
  rw [Bool.and_eq_true] at h
  have h2 : ('.' : Char) ∉ pat.data := by simpa using h.2
  intro p hp he
  exact h2 (he ▸ hp)

theorem reStartsWith_eq_substr : ∀ (s patl : List Char),
    (∀ p ∈ patl, p ≠ '.') → reStartsWith s patl = substrStartsWith s patl := by
  intro s
  induction s with
  | nil => intro patl h; cases patl <;> rfl
  | cons c cs ih =>
    intro patl h
    cases patl with
    | nil => rfl
    | cons p ps =>
      show (patCharMatch p c && reStartsWith cs ps) =
        ((p.toLower == c.toLower) && substrStartsWith cs ps)
      rw [show patCharMatch p c = (p.toLower == c.toLower) from by
          unfold patCharMatch; rw [if_neg (h p (by simp))],
        ih ps (fun q hq => h q (by simp [hq]))]

theorem reSearch_eq_substr : ∀ (s patl : List Char),
    (∀ p ∈ patl, p ≠ '.') → reSearch s patl = substrContain s patl := by
  intro s
  induction s with
  | nil => intro patl h; rfl
  | cons c cs ih =>
    intro patl h
    show (reStartsWith (c :: cs) patl || reSearch cs patl) =
      (substrStartsWith (c :: cs) patl || substrContain cs patl)
    rw [reStartsWith_eq_substr _ _ h, ih patl h]

theorem stepName_ok {nameCol : String} {t : Table} {pat : String} {i : Nat}
    (hpat : patLiteral pat = true)
    (hidx : idxOfCol t.cols nameCol = some i)
    (hstr : ∀ r ∈ t.rows, isStrB (r.getD i Value.na) = true) :
    stepName nameCol pat t =
      Except.ok ⟨t.cols, t.rows.filter
        (fun r => nameMatches (r.getD i Value.na) pat)⟩ := by
  have hmask : ∀ r ∈ t.rows,
      maskNameVal pat (r.getD i Value.na) =
        Except.ok (nameMatches (r.getD i Value.na) pat) := by
    intro r hr
    have h := hstr r hr
    cases hv : r.getD i Value.na with
    | str s =>
      unfold maskNameVal
      rw [if_pos (patLiteral_modelled hpat)]
      show Except.ok (reSearch s.data pat.data) =
        Except.ok (nameMatches (Value.str s) pat)
      rw [reSearch_eq_substr _ _ (patLiteral_no_dot hpat)]
      rfl
    | na => rw [hv] at h; exact absurd h (by simp [isStrB])
    | num q => rw [hv] at h; exact absurd h (by simp [isStrB])
  have hc : colIdx t nameCol = Except.ok i := by unfold colIdx; rw [hidx]
  unfold stepName
  rw [hc]
  simp only [exceptBindOk]
  rw [filterME_ok hmask]
  rfl

theorem stepTeams_ok {teamCol : String} {t : Table} {teams : List String}
    {i : Nat} (hidx : idxOfCol t.cols teamCol = some i) :
    stepTeams teamCol teams t =
      Except.ok ⟨t.cols, t.rows.filter
        (fun r => valIsin (r.getD i Value.na) teams)⟩ := by
  have hc : colIdx t teamCol = Except.ok i := by unfold colIdx; rw [hidx]
  unfold stepTeams
  rw [hc]
  rfl

theorem stepRange_ok {col : String} {t : Table} {lo hi : Rat} {i : Nat}
    (hidx : idxOfCol t.cols col = some i)
    (hnum : ∀ r ∈ t.rows, notStrB (r.getD i Value.na) = true) :
    stepRange col lo hi t =
      Except.ok ⟨t.cols, t.rows.filter
        (fun r => inRange (r.getD i Value.na) lo hi)⟩ := by
  have hmask : ∀ r ∈ t.rows,
      maskRangeVal lo hi (r.getD i Value.na) =
        Except.ok (inRange (r.getD i Value.na) lo hi) := by
    intro r hr
    have h := hnum r hr
    cases hv : r.getD i Value.na with
    | str s => rw [hv] at h; exact absurd h (by simp [notStrB])
    | na => rfl
    | num q => rfl
  have hc : colIdx t col = Except.ok i := by unfold colIdx; rw [hidx]
  unfold stepRange
  rw [hc]
  simp only [exceptBindOk]
  rw [filterME_ok hmask]
  rfl

theorem colStrB_elim {t : Table} {c : String} (h : colStrB t c = true) :
    ∃ i, idxOfCol t.cols c = some i ∧
      ∀ r ∈ t.rows, isStrB (r.getD i Value.na) = true := by
  unfold colStrB colPresentB at h
  rw [Bool.and_eq_true] at h
  obtain ⟨h1, h2⟩ := h
  obtain ⟨i, hi⟩ := Option.isSome_iff_exists.mp h1
  refine ⟨i, hi, fun r hr => ?_⟩
  have hh := List.all_eq_true.mp h2 r hr
  rwa [lookupVal_eq_getD hi] at hh

theorem colNumB_elim {t : Table} {c : String} (h : colNumB t c = true) :
    ∃ i, idxOfCol t.cols c = some i ∧
      ∀ r ∈ t.rows, notStrB (r.getD i Value.na) = true := by
  unfold colNumB colPresentB at h
  rw [Bool.and_eq_true] at h
  obtain ⟨h1, h2⟩ := h
  obtain ⟨i, hi⟩ := Option.isSome_iff_exists.mp h1
  refine ⟨i, hi, fun r hr => ?_⟩
  have hh := List.all_eq_true.mp h2 r hr
  rwa [lookupVal_eq_getD hi] at hh

@[simp] theorem tableColsMk (c : List String) (r : List (List Value)) :
    (Table.mk c r).cols = c := rfl

@[simp] theorem tableRowsMk (c : List String) (r : List (List Value)) :
    (Table.mk c r).rows = r := rfl

theorem optName_ok {nameCol : String} {t : Table} {pn : Option String}
    (h : truthyName pn = true → colStrB t nameCol = true)
    (hp : truthyName pn = true → patLiteral (pn.getD "") = true) :
    optName nameCol pn t =
      Except.ok ⟨t.cols, t.rows.filter (critName nameCol pn t.cols)⟩ := by
  unfold optName
  cases htn : truthyName pn with
  | false =>
    have : ∀ r : List Value, critName nameCol pn t.cols r = true := by
      intro r; unfold critName; rw [htn]; rfl
    simp [List.filter_congr (fun x _ => this x), List.filter_true]
  | true =>
    obtain ⟨i, hi, hvals⟩ := colStrB_elim (h htn)
    rw [if_pos rfl, stepName_ok (hp htn) hi hvals]
    refine congrArg Except.ok (congrArg (Table.mk t.cols)
      (List.filter_congr fun x hx => ?_))
    unfold critName
    rw [htn, if_pos rfl, lookupVal_eq_getD hi]

theorem optTeams_ok {teamCol : String} {t : Table} {tms : Option (List String)}
    (h : truthyTeams tms = true → colPresentB t teamCol = true) :
    optTeams teamCol tms t =
      Except.ok ⟨t.cols, t.rows.filter (critTeams teamCol tms t.cols)⟩ := by
  unfold optTeams
  cases htn : truthyTeams tms with
  | false =>
    have : ∀ r : List Value, critTeams teamCol tms t.cols r = true := by
      intro r; unfold critTeams; rw [htn]; rfl
    simp [List.filter_congr (fun x _ => this x), List.filter_true]
  | true =>
    obtain ⟨i, hi⟩ := Option.isSome_iff_exists.mp (h htn)
    rw [if_pos rfl, stepTeams_ok hi]
    refine congrArg Except.ok (congrArg (Table.mk t.cols)
      (List.filter_congr fun x hx => ?_))
    unfold critTeams
    rw [htn, if_pos rfl, lookupVal_eq_getD hi]

theorem optRange_ok {col : String} {t : Table} {ro : Option (Rat × Rat)}
    (h : ro.isSome = true → colNumB t col = true) :
    optRange col ro t =
      Except.ok ⟨t.cols, t.rows.filter (critRange col ro t.cols)⟩ := by
  unfold optRange
  cases ro with
  | none =>
    have : ∀ r : List Value, critRange col none t.cols r = true := by
      intro r; rfl
    simp [List.filter_congr (fun x _ => this x), List.filter_true]
  | some p =>
    obtain ⟨lo, hi⟩ := p
    obtain ⟨i, hi2, hvals⟩ := colNumB_elim (h rfl)
    show stepRange col lo hi t =
      Except.ok ⟨t.cols, t.rows.filter (critRange col (some (lo, hi)) t.cols)⟩
    rw [stepRange_ok hi2 hvals]
    refine congrArg Except.ok (congrArg (Table.mk t.cols)
      (List.filter_congr fun x hx => ?_))
    show inRange (x.getD i Value.na) lo hi =
      inRange (lookupVal t.cols x col) lo hi
    rw [lookupVal_eq_getD hi2]

theorem colStrB_filter {cols : List String} {rows : List (List Value)}
    {c : String} {p : List Value → Bool}
    (h : colStrB ⟨cols, rows⟩ c = true) :
    colStrB ⟨cols, rows.filter p⟩ c = true := by
  unfold colStrB colPresentB at h ⊢
  rw [Bool.and_eq_true] at h ⊢
  refine ⟨h.1, List.all_eq_true.mpr fun r hr => ?_⟩
  exact List.all_eq_true.mp h.2 r (List.mem_filter.mp hr).1

theorem colNumB_filter {cols : List String} {rows : List (List Value)}
    {c : String} {p : List Value → Bool}
    (h : colNumB ⟨cols, rows⟩ c = true) :
    colNumB ⟨cols, rows.filter p⟩ c = true := by
  unfold colNumB colPresentB at h ⊢
  rw [Bool.and_eq_true] at h ⊢
  refine ⟨h.1, List.all_eq_true.mpr fun r hr => ?_⟩
  exact List.all_eq_true.mp h.2 r (List.mem_filter.mp hr).1

/-- Exact characterisation of the shared filter body: under the schema
assumptions forced by the supplied criteria, it returns exactly the rows
that satisfy all supplied constraints, in their original order. -/
theorem filterData_ok {nameCol teamCol colA colB : String} {t : Table}
    {pn : Option String} {tms : Option (List String)}
    {ra rb : Option (Rat × Rat)}
    (hn : truthyName pn = true → colStrB t nameCol = true)
    (hp : truthyName pn = true → patLiteral (pn.getD "") = true)
    (ht : truthyTeams tms = true → colPresentB t teamCol = true)
    (ha : ra.isSome = true → colNumB t colA = true)
    (hb : rb.isSome = true → colNumB t colB = true) :
    filterData nameCol teamCol colA colB t pn tms ra rb =
      Except.ok ⟨t.cols, t.rows.filter
        (satisfies nameCol teamCol colA colB pn tms ra rb t.cols)⟩ := by
  unfold filterData
  rw [optName_ok hn hp]
  simp only [exceptBindOk]
  have ht1 : truthyTeams tms = true →
      colPresentB (Table.mk t.cols
        (t.rows.filter (critName nameCol pn t.cols))) teamCol = true := ht
  rw [optTeams_ok ht1]
  simp only [exceptBindOk, tableColsMk, tableRowsMk]
  have ha1 : ra.isSome = true →
      colNumB (Table.mk t.cols
        ((t.rows.filter (critName nameCol pn t.cols)).filter
          (critTeams teamCol tms t.cols))) colA = true :=
    fun hr => colNumB_filter (colNumB_filter (ha hr))
  rw [optRange_ok ha1]
  simp only [exceptBindOk, tableColsMk, tableRowsMk]
  have hb1 : rb.isSome = true →
      colNumB (Table.mk t.cols
        (((t.rows.filter (critName nameCol pn t.cols)).filter
          (critTeams teamCol tms t.cols)).filter
            (critRange colA ra t.cols))) colB = true :=
    fun hr => colNumB_filter (colNumB_filter (colNumB_filter (hb hr)))
  rw [optRange_ok hb1]
  simp only [exceptBindOk, exceptPureEq, tableColsMk, tableRowsMk]
  rw [List.filter_filter, List.filter_filter, List.filter_filter]
  refine congrArg Except.ok (congrArg (Table.mk t.cols)
    (List.filter_congr fun x hx => ?_))
  unfold satisfies
  cases critName nameCol pn t.cols x <;>
    cases critTeams teamCol tms t.cols x <;>
      cases critRange colA ra t.cols x <;>
        cases critRange colB rb t.cols x <;> rfl

/-- `filterData_ok` specialised to the bowling columns. -/
theorem filter_bowling_ok {t : Table} {pn : Option String}
    {tms : Option (List String)} {er ar : Option (Rat × Rat)}
    (hn : truthyName pn = true → colStrB t "Name" = true)
    (hp : truthyName pn = true → patLiteral (pn.getD "") = true)
    (ht : truthyTeams tms = true → colPresentB t "2023_Team" = true)
    (he : er.isSome = true → colNumB t "Economy" = true)
    (hv : ar.isSome = true → colNumB t "Average" = true) :
    filter_bowling_data t pn tms er ar =
      Except.ok ⟨t.cols, t.rows.filter
        (satisfies "Name" "2023_Team" "Economy" "Average" pn tms er ar t.cols)⟩ :=
  filterData_ok hn hp ht he hv

/-- `filterData_ok` specialised to the batting columns. -/
theorem filter_batting_ok {t : Table} {pn : Option String}
    {tms : Option (List String)} {sr hs : Option (Rat × Rat)}
    (hn : truthyName pn = true → colStrB t "Name" = true)
    (hp : truthyName pn = true → patLiteral (pn.getD "") = true)
    (ht : truthyTeams tms = true → colPresentB t "2023_Team" = true)
    (h1 : sr.isSome = true → colNumB t "Strike_rate" = true)
    (h2 : hs.isSome = true → colNumB t "Highest_score" = true) :
    filter_batting_data t pn tms sr hs =
      Except.ok ⟨t.cols, t.rows.filter
        (satisfies "Name" "2023_Team" "Strike_rate" "Highest_score" pn tms sr hs
          t.cols)⟩ :=
  filterData_ok hn hp ht h1 h2

/-- C1 counterexample: pandas `str.contains` treats the name criterion as
a regular expression (`regex=True` default), not as a literal substring.
With the pattern `"."` — which matches any character — the bowling filter
keeps every row of `sampleTable`, while the claimed case-insensitive
substring reading keeps none (no name contains a literal `"."`): the
claim as stated is false at this input. -/
theorem C1_name_substring_counterexample :
    filter_bowling_data sampleTable (some ".") none none none =
      Except.ok sampleTable ∧
    sampleTable.rows.filter
      (satisfies "Name" "2023_Team" "Economy" "Average" (some ".") none none
        none sampleTable.cols) = [] ∧
    sampleTable.rows ≠ [] :=
  ⟨rfl, by decide, by decide⟩

/-- C1 (amended): for every table and every combination of supplied
criteria whose name pattern is literal (free of regex metacharacters —
pandas treats the pattern as a regular expression, and on literal
patterns a regex search is exactly a substring search), both filter
functions return exactly the rows of the input table satisfying all
supplied constraints (name as case-insensitive substring of `Name`, teams
by exact membership in the season-team column, numeric ranges as
inclusive bounds), in their original relative order (a `List.filter` of
the input rows), provided the columns demanded by the supplied criteria
exist with cells of the expected kind. -/
theorem C1_filter_returns_exactly_matching_rows (t : Table) (pn : Option String)
    (tms : Option (List String)) (er ar sr hs : Option (Rat × Rat))
    (hn : truthyName pn = true → colStrB t "Name" = true)
    (hp : truthyName pn = true → patLiteral (pn.getD "") = true)
    (ht : truthyTeams tms = true → colPresentB t "2023_Team" = true)
    (he : er.isSome = true → colNumB t "Economy" = true)
    (hv : ar.isSome = true → colNumB t "Average" = true)
    (h1 : sr.isSome = true → colNumB t "Strike_rate" = true)
    (h2 : hs.isSome = true → colNumB t "Highest_score" = true) :
    filter_bowling_data t pn tms er ar =
      Except.ok ⟨t.cols, t.rows.filter
        (satisfies "Name" "2023_Team" "Economy" "Average" pn tms er ar t.cols)⟩ ∧
    filter_batting_data t pn tms sr hs =
      Except.ok ⟨t.cols, t.rows.filter
        (satisfies "Name" "2023_Team" "Strike_rate" "Highest_score" pn tms sr hs
          t.cols)⟩ :=
  ⟨filter_bowling_ok hn hp ht he hv, filter_batting_ok hn hp ht h1 h2⟩

/-- Witness for C1 at a concrete table and concrete criteria. -/
theorem C1_filter_returns_exactly_matching_rows_witness :
    (truthyName (some "sha") = true → colStrB sampleTable "Name" = true) ∧
    (truthyName (some "sha") = true →
      patLiteral ((some "sha").getD "") = true) ∧
    (truthyTeams (some ["GT"]) = true →
      colPresentB sampleTable "2023_Team" = true) ∧
    ((some ((0 : Rat), (9 : Rat))).isSome = true →
      colNumB sampleTable "Economy" = true) ∧
    ((some ((0 : Rat), (25 : Rat))).isSome = true →
      colNumB sampleTable "Average" = true) ∧
    ((some ((0 : Rat), (200 : Rat))).isSome = true →
      colNumB sampleTable "Strike_rate" = true) ∧
    ((some ((0 : Rat), (200 : Rat))).isSome = true →
      colNumB sampleTable "Highest_score" = true) ∧
    (filter_bowling_data sampleTable (some "sha") (some ["GT"])
        (some (0, 9)) (some (0, 25)) =
      Except.ok ⟨sampleTable.cols, sampleTable.rows.filter
        (satisfies "Name" "2023_Team" "Economy" "Average" (some "sha")
          (some ["GT"]) (some (0, 9)) (some (0, 25)) sampleTable.cols)⟩ ∧
     filter_batting_data sampleTable (some "sha") (some ["GT"])
        (some (0, 200)) (some (0, 200)) =
      Except.ok ⟨sampleTable.cols, sampleTable.rows.filter
        (satisfies "Name" "2023_Team" "Strike_rate" "Highest_score" (some "sha")
          (some ["GT"]) (some (0, 200)) (some (0, 200)) sampleTable.cols)⟩) :=
  ⟨by decide, by decide, by decide, by decide, by decide, by decide, by decide,
    C1_filter_returns_exactly_matching_rows sampleTable (some "sha")
      (some ["GT"]) (some (0, 9)) (some (0, 25)) (some (0, 200)) (some (0, 200))
      (by decide) (by decide) (by decide) (by decide) (by decide) (by decide)
      (by decide)⟩

/-- C3: applying either filter with no criteria supplied returns the input
table unchanged (identity law). -/
theorem C3_filter_no_criteria_identity (t : Table) :
    filter_bowling_data t none none none none = Except.ok t ∧
    filter_batting_data t none none none none = Except.ok t :=
  ⟨rfl, rfl⟩

/-- C9: a falsy criterion (empty name string, empty team list) filters
nothing: the call is identical to the call that omits the criterion. -/
theorem C9_falsy_criteria_are_no_constraint (t : Table) (pn : Option String)
    (tms : Option (List String)) (ra rb : Option (Rat × Rat)) :
    (filter_bowling_data t (some "") tms ra rb =
        filter_bowling_data t none tms ra rb ∧
     filter_bowling_data t pn (some []) ra rb =
        filter_bowling_data t pn none ra rb) ∧
    (filter_batting_data t (some "") tms ra rb =
        filter_batting_data t none tms ra rb ∧
     filter_batting_data t pn (some []) ra rb =
        filter_batting_data t pn none ra rb) :=
  ⟨⟨rfl, rfl⟩, ⟨rfl, rfl⟩⟩

/-! ## Frame lemmas: a successful filter returns a sub-view of the input -/

theorem filterME_sublist {α : Type} {p : α → Except String Bool} :
    ∀ {l out : List α}, filterME p l = Except.ok out → out.Sublist l := by
  intro l
  induction l with
  | nil =>
    intro out h
    unfold filterME at h
    rw [Except.ok.injEq] at h
    rw [← h]
  | cons a as ih =>
    intro out h
    unfold filterME at h
    cases hpa : p a with
    | error e => rw [hpa, exceptBindErr] at h; exact Except.noConfusion h
    | ok b =>
      rw [hpa] at h; simp only [exceptBindOk] at h
      cases hrest : filterME p as with
      | error e => rw [hrest, exceptBindErr] at h; exact Except.noConfusion h
      | ok rest =>
        rw [hrest] at h
        simp only [exceptBindOk, exceptPureEq, Except.ok.injEq] at h
        cases b with
        | true => rw [← h]; exact List.Sublist.cons₂ a (ih hrest)
        | false => rw [← h]; exact List.Sublist.cons a (ih hrest)

theorem stepName_frame {nameCol pat : String} {t u : Table}
    (h : stepName nameCol pat t = Except.ok u) :
    u.cols = t.cols ∧ u.rows.Sublist t.rows := by
  unfold stepName at h
  cases hc : colIdx t nameCol with
  | error e => rw [hc, exceptBindErr] at h; exact Except.noConfusion h
  | ok i =>
    rw [hc] at h; simp only [exceptBindOk] at h
    cases hf : filterME (fun r => maskNameVal pat (r.getD i Value.na)) t.rows with
    | error e => rw [hf, exceptBindErr] at h; exact Except.noConfusion h
    | ok rs =>
      rw [hf] at h
      simp only [exceptBindOk, exceptPureEq, Except.ok.injEq] at h
      rw [← h]
      exact ⟨rfl, filterME_sublist hf⟩

theorem stepTeams_frame {teamCol : String} {teams : List String} {t u : Table}
    (h : stepTeams teamCol teams t = Except.ok u) :
    u.cols = t.cols ∧ u.rows.Sublist t.rows := by
  unfold stepTeams at h
  cases hc : colIdx t teamCol with
  | error e => rw [hc, exceptBindErr] at h; exact Except.noConfusion h
  | ok i =>
    rw [hc] at h
    simp only [exceptBindOk, exceptPureEq, Except.ok.injEq] at h
    rw [← h]
    exact ⟨rfl, List.filter_sublist t.rows⟩

theorem stepRange_frame {col : String} {lo hi : Rat} {t u : Table}
    (h : stepRange col lo hi t = Except.ok u) :
    u.cols = t.cols ∧ u.rows.Sublist t.rows := by
  unfold stepRange at h
  cases hc : colIdx t col with
  | error e => rw [hc, exceptBindErr] at h; exact Except.noConfusion h
  | ok i =>
    rw [hc] at h; simp only [exceptBindOk] at h
    cases hf : filterME (fun r => maskRangeVal lo hi (r.getD i Value.na)) t.rows with
    | error e => rw [hf, exceptBindErr] at h; exact Except.noConfusion h
    | ok rs =>
      rw [hf] at h
      simp only [exceptBindOk, exceptPureEq, Except.ok.injEq] at h
      rw [← h]
      exact ⟨rfl, filterME_sublist hf⟩

theorem optName_frame {nameCol : String} {pn : Option String} {t u : Table}
    (h : optName nameCol pn t = Except.ok u) :
    u.cols = t.cols ∧ u.rows.Sublist t.rows := by
  unfold optName at h
  cases htn : truthyName pn with
  | false =>
    rw [htn, if_neg (by simp), exceptPureEq, Except.ok.injEq] at h
    rw [← h]
    exact ⟨rfl, List.Sublist.refl t.rows⟩
  | true => rw [htn, if_pos rfl] at h; exact stepName_frame h

theorem optTeams_frame {teamCol : String} {tms : Option (List String)} {t u : Table}
    (h : optTeams teamCol tms t = Except.ok u) :
    u.cols = t.cols ∧ u.rows.Sublist t.rows := by
  unfold optTeams at h
  cases htn : truthyTeams tms with
  | false =>
    rw [htn, if_neg (by simp), exceptPureEq, Except.ok.injEq] at h
    rw [← h]
    exact ⟨rfl, List.Sublist.refl t.rows⟩
  | true => rw [htn, if_pos rfl] at h; exact stepTeams_frame h

theorem optRange_frame {col : String} {ro : Option (Rat × Rat)} {t u : Table}
    (h : optRange col ro t = Except.ok u) :
    u.cols = t.cols ∧ u.rows.Sublist t.rows := by
  unfold optRange at h
  cases ro with
  | none =>
    rw [exceptPureEq, Except.ok.injEq] at h
    rw [← h]
    exact ⟨rfl, List.Sublist.refl t.rows⟩
  | some p =>
    obtain ⟨lo, hi⟩ := p
    exact stepRange_frame h

/-- A successful run of the shared filter body preserves the column list
and returns a sublist of the input rows (a fresh filtered view whose rows
are the input's rows, unchanged and in order). -/
theorem filterData_frame {nameCol teamCol colA colB : String} {t res : Table}
    {pn : Option String} {tms : Option (List String)} {ra rb : Option (Rat × Rat)}
    (h : filterData nameCol teamCol colA colB t pn tms ra rb = Except.ok res) :
    res.cols = t.cols ∧ res.rows.Sublist t.rows := by
  unfold filterData at h
  cases h1 : optName nameCol pn t with
  | error e => rw [h1, exceptBindErr] at h; exact Except.noConfusion h
  | ok u1 =>
    rw [h1] at h; simp only [exceptBindOk] at h
    cases h2 : optTeams teamCol tms u1 with
    | error e => rw [h2, exceptBindErr] at h; exact Except.noConfusion h
    | ok u2 =>
      rw [h2] at h; simp only [exceptBindOk] at h
      cases h3 : optRange colA ra u2 with
      | error e => rw [h3, exceptBindErr] at h; exact Except.noConfusion h
      | ok u3 =>
        rw [h3] at h; simp only [exceptBindOk] at h
        cases h4 : optRange colB rb u3 with
        | error e => rw [h4, exceptBindErr] at h; exact Except.noConfusion h
        | ok u4 =>
          rw [h4] at h
          simp only [exceptBindOk, exceptPureEq, Except.ok.injEq] at h
          obtain ⟨c1, s1⟩ := optName_frame h1
          obtain ⟨c2, s2⟩ := optTeams_frame h2
          obtain ⟨c3, s3⟩ := optRange_frame h3
          obtain ⟨c4, s4⟩ := optRange_frame h4
          rw [← h]
          exact ⟨(c4.trans c3).trans (c2.trans c1),
            ((s4.trans s3).trans s2).trans s1⟩

/-- C7: both filter functions are referentially transparent and
side-effect free.  In this pure embedding a second call with the same
arguments is literally the same computation (first conjunct of each pair),
and a successful call returns a fresh view: same column list, and a
sublist of the source table's rows — every returned row is one of the
source's rows, unchanged and in order, and the source table value itself
is untouched. -/
theorem C7_filter_referentially_transparent (t resB resS : Table)
    (pn : Option String) (tms : Option (List String))
    (er ar sr hs : Option (Rat × Rat))
    (hB : filter_bowling_data t pn tms er ar = Except.ok resB)
    (hS : filter_batting_data t pn tms sr hs = Except.ok resS) :
    (filter_bowling_data t pn tms er ar = Except.ok resB ∧
     resB.cols = t.cols ∧ resB.rows.Sublist t.rows) ∧
    (filter_batting_data t pn tms sr hs = Except.ok resS ∧
     resS.cols = t.cols ∧ resS.rows.Sublist t.rows) :=
  ⟨⟨hB, (filterData_frame hB).1, (filterData_frame hB).2⟩,
   ⟨hS, (filterData_frame hS).1, (filterData_frame hS).2⟩⟩

/-- Witness for C7: the criterion-free calls on `sampleTable` succeed and
return it unchanged, hence are a sub-view of it. -/
theorem C7_filter_referentially_transparent_witness :
    filter_bowling_data sampleTable none none none none =
        Except.ok sampleTable ∧
    ((filter_bowling_data sampleTable none none none none =
          Except.ok sampleTable ∧
      sampleTable.cols = sampleTable.cols ∧
      sampleTable.rows.Sublist sampleTable.rows) ∧
     (filter_batting_data sampleTable none none none none =
          Except.ok sampleTable ∧
      sampleTable.cols = sampleTable.cols ∧
      sampleTable.rows.Sublist sampleTable.rows)) :=
  ⟨rfl, C7_filter_referentially_transparent sampleTable sampleTable sampleTable
    none none none none none none rfl rfl⟩

/-! ## Missing-column errors -/

theorem idxOfCol_eq_none {cols : List String} {c : String} (h : c ∉ cols) :
    idxOfCol cols c = none := by
  induction cols with
  | nil => rfl
  | cons d ds ih =>
    rw [List.mem_cons, not_or] at h
    unfold idxOfCol
    rw [if_neg (fun he => h.1 he.symm), ih h.2]
    rfl

theorem colIdx_err {t : Table} {c : String} (h : idxOfCol t.cols c = none) :
    colIdx t c = Except.error ("missing column: " ++ c) := by
  unfold colIdx
  rw [h]

theorem stepName_err {nameCol pat : String} {t : Table}
    (h : idxOfCol t.cols nameCol = none) :
    stepName nameCol pat t = Except.error ("missing column: " ++ nameCol) := by
  unfold stepName
  rw [colIdx_err h]
  rfl

theorem stepTeams_err {teamCol : String} {teams : List String} {t : Table}
    (h : idxOfCol t.cols teamCol = none) :
    stepTeams teamCol teams t = Except.error ("missing column: " ++ teamCol) := by
  unfold stepTeams
  rw [colIdx_err h]
  rfl

theorem stepRange_err {col : String} {lo hi : Rat} {t : Table}
    (h : idxOfCol t.cols col = none) :
    stepRange col lo hi t = Except.error ("missing column: " ++ col) := by
  unfold stepRange
  rw [colIdx_err h]
  rfl

theorem filterData_err_name {nameCol teamCol colA colB : String} {t : Table}
    {pn : Option String} {tms : Option (List String)} {ra rb : Option (Rat × Rat)}
    (h : idxOfCol t.cols nameCol = none) (htn : truthyName pn = true) :
    filterData nameCol teamCol colA colB t pn tms ra rb =
      Except.error ("missing column: " ++ nameCol) := by
  unfold filterData optName
  rw [htn, if_pos rfl, stepName_err h]
  rfl

theorem filterData_err_teams {nameCol teamCol colA colB : String} {t : Table}
    {ra rb : Option (Rat × Rat)} (s : String) (ts : List String)
    (h : idxOfCol t.cols teamCol = none) :
    filterData nameCol teamCol colA colB t none (some (s :: ts)) ra rb =
      Except.error ("missing column: " ++ teamCol) := by
  unfold filterData
  rw [show optName nameCol none t = Except.ok t from rfl]
  simp only [exceptBindOk]
  rw [show optTeams teamCol (some (s :: ts)) t = stepTeams teamCol (s :: ts) t
      from rfl,
    stepTeams_err h]
  rfl

theorem filterData_err_rangeA {nameCol teamCol colA colB : String} {t : Table}
    {rb : Option (Rat × Rat)} (lo hi : Rat)
    (h : idxOfCol t.cols colA = none) :
    filterData nameCol teamCol colA colB t none none (some (lo, hi)) rb =
      Except.error ("missing column: " ++ colA) := by
  unfold filterData
  rw [show optName nameCol none t = Except.ok t from rfl]
  simp only [exceptBindOk]
  rw [show optTeams teamCol none t = Except.ok t from rfl]
  simp only [exceptBindOk]
  rw [show optRange colA (some (lo, hi)) t = stepRange colA lo hi t from rfl,
    stepRange_err h]
  rfl

theorem filterData_err_rangeB {nameCol teamCol colA colB : String} {t : Table}
    (lo hi : Rat) (h : idxOfCol t.cols colB = none) :
    filterData nameCol teamCol colA colB t none none none (some (lo, hi)) =
      Except.error ("missing column: " ++ colB) := by
  unfold filterData
  rw [show optName nameCol none t = Except.ok t from rfl]
  simp only [exceptBindOk]
  rw [show optTeams teamCol none t = Except.ok t from rfl]
  simp only [exceptBindOk]
  rw [show optRange colA none t = Except.ok t from rfl]
  simp only [exceptBindOk]
  rw [show optRange colB (some (lo, hi)) t = stepRange colB lo hi t from rfl,
    stepRange_err h]
  rfl

/-- C8: when a criterion is supplied but the column it filters on does not
exist in the table, both filter functions fail loudly with a
missing-column error instead of silently skipping the criterion: shown for
each of the four criteria of each function. -/
theorem C8_missing_column_fails_loudly (t : Table) (pn : Option String)
    (s : String) (ts : List String) (tms : Option (List String))
    (lo hi : Rat) (ra rb : Option (Rat × Rat)) :
    (("Name" ∉ t.cols → truthyName pn = true →
        filter_bowling_data t pn tms ra rb =
          Except.error ("missing column: " ++ "Name")) ∧
     ("2023_Team" ∉ t.cols →
        filter_bowling_data t none (some (s :: ts)) ra rb =
          Except.error ("missing column: " ++ "2023_Team")) ∧
     ("Economy" ∉ t.cols →
        filter_bowling_data t none none (some (lo, hi)) rb =
          Except.error ("missing column: " ++ "Economy")) ∧
     ("Average" ∉ t.cols →
        filter_bowling_data t none none none (some (lo, hi)) =
          Except.error ("missing column: " ++ "Average"))) ∧
    (("Name" ∉ t.cols → truthyName pn = true →
        filter_batting_data t pn tms ra rb =
          Except.error ("missing column: " ++ "Name")) ∧
     ("2023_Team" ∉ t.cols →
        filter_batting_data t none (some (s :: ts)) ra rb =
          Except.error ("missing column: " ++ "2023_Team")) ∧
     ("Strike_rate" ∉ t.cols →
        filter_batting_data t none none (some (lo, hi)) rb =
          Except.error ("missing column: " ++ "Strike_rate")) ∧
     ("Highest_score" ∉ t.cols →
        filter_batting_data t none none none (some (lo, hi)) =
          Except.error ("missing column: " ++ "Highest_score"))) :=
  ⟨⟨fun h htn => filterData_err_name (idxOfCol_eq_none h) htn,
    fun h => filterData_err_teams s ts (idxOfCol_eq_none h),
    fun h => filterData_err_rangeA lo hi (idxOfCol_eq_none h),
    fun h => filterData_err_rangeB lo hi (idxOfCol_eq_none h)⟩,
   ⟨fun h htn => filterData_err_name (idxOfCol_eq_none h) htn,
    fun h => filterData_err_teams s ts (idxOfCol_eq_none h),
    fun h => filterData_err_rangeA lo hi (idxOfCol_eq_none h),
    fun h => filterData_err_rangeB lo hi (idxOfCol_eq_none h)⟩⟩

/-- Witness for C8 on the empty-schema table: filtering by an Economy
range fails with the missing-column error. -/
theorem C8_missing_column_fails_loudly_witness :
    ("Economy" ∉ (Table.mk [] []).cols) ∧
    filter_bowling_data (Table.mk [] []) none none (some (0, 10)) none =
      Except.error ("missing column: " ++ "Economy") :=
  ⟨by decide,
    (C8_missing_column_fails_loudly (Table.mk [] []) none "x" [] none 0 10
        (some (0, 10)) none).1.2.2.1 (by decide)⟩

theorem critName_none (nameCol : String) (cols : List String)
    (row : List Value) : critName nameCol none cols row = true := rfl

theorem critTeams_none (teamCol : String) (cols : List String)
    (row : List Value) : critTeams teamCol none cols row = true := rfl

theorem critRange_none (col : String) (cols : List String)
    (row : List Value) : critRange col none cols row = true := rfl

/-- C4: filtering twice is filtering by the conjunction.  For both filter
functions, running the filter with criteria set 1 and then running it
again with criteria set 2 on the result yields exactly the rows satisfying
both constraint sets at once; when the two sets touch disjoint criteria
(first call: name and teams, second call: the two ranges) the sequence
moreover equals the single combined call of the program itself. -/
theorem C4_filter_compose (t : Table) (pn1 pn2 : Option String)
    (tms1 tms2 : Option (List String)) (ra1 rb1 ra2 rb2 : Option (Rat × Rat))
    (hn1 : truthyName pn1 = true → colStrB t "Name" = true)
    (hp1 : truthyName pn1 = true → patLiteral (pn1.getD "") = true)
    (ht1 : truthyTeams tms1 = true → colPresentB t "2023_Team" = true)
    (hn2 : truthyName pn2 = true → colStrB t "Name" = true)
    (hp2 : truthyName pn2 = true → patLiteral (pn2.getD "") = true)
    (ht2 : truthyTeams tms2 = true → colPresentB t "2023_Team" = true)
    (hec1 : ra1.isSome = true → colNumB t "Economy" = true)
    (hav1 : rb1.isSome = true → colNumB t "Average" = true)
    (hec2 : ra2.isSome = true → colNumB t "Economy" = true)
    (hav2 : rb2.isSome = true → colNumB t "Average" = true)
    (hsr1 : ra1.isSome = true → colNumB t "Strike_rate" = true)
    (hhs1 : rb1.isSome = true → colNumB t "Highest_score" = true)
    (hsr2 : ra2.isSome = true → colNumB t "Strike_rate" = true)
    (hhs2 : rb2.isSome = true → colNumB t "Highest_score" = true) :
    ((filter_bowling_data t pn1 tms1 ra1 rb1).bind
        (fun t1 => filter_bowling_data t1 pn2 tms2 ra2 rb2) =
      Except.ok ⟨t.cols, t.rows.filter (fun r =>
        satisfies "Name" "2023_Team" "Economy" "Average" pn1 tms1 ra1 rb1
          t.cols r &&
        satisfies "Name" "2023_Team" "Economy" "Average" pn2 tms2 ra2 rb2
          t.cols r)⟩) ∧
    ((filter_bowling_data t pn1 tms1 none none).bind
        (fun t1 => filter_bowling_data t1 none none ra2 rb2) =
      filter_bowling_data t pn1 tms1 ra2 rb2) ∧
    ((filter_batting_data t pn1 tms1 ra1 rb1).bind
        (fun t1 => filter_batting_data t1 pn2 tms2 ra2 rb2) =
      Except.ok ⟨t.cols, t.rows.filter (fun r =>
        satisfies "Name" "2023_Team" "Strike_rate" "Highest_score" pn1 tms1
          ra1 rb1 t.cols r &&
        satisfies "Name" "2023_Team" "Strike_rate" "Highest_score" pn2 tms2
          ra2 rb2 t.cols r)⟩) ∧
    ((filter_batting_data t pn1 tms1 none none).bind
        (fun t1 => filter_batting_data t1 none none ra2 rb2) =
      filter_batting_data t pn1 tms1 ra2 rb2) := by
  refine ⟨?_, ?_, ?_, ?_⟩
  · rw [filter_bowling_ok hn1 hp1 ht1 hec1 hav1]
    simp only [exceptBindOkB]
    rw [filter_bowling_ok
      (t := Table.mk t.cols (t.rows.filter
        (satisfies "Name" "2023_Team" "Economy" "Average" pn1 tms1 ra1 rb1
          t.cols)))
      (fun h => colStrB_filter (hn2 h)) (fun h => hp2 h) (fun h => ht2 h)
      (fun h => colNumB_filter (hec2 h)) (fun h => colNumB_filter (hav2 h))]
    simp only [tableColsMk, tableRowsMk]
    rw [List.filter_filter]
    exact congrArg Except.ok (congrArg (Table.mk t.cols)
      (List.filter_congr fun x hx => Bool.and_comm _ _))
  · rw [filter_bowling_ok hn1 hp1 ht1 (fun h => Bool.noConfusion h)
      (fun h => Bool.noConfusion h)]
    simp only [exceptBindOkB]
    rw [@filter_bowling_ok
      (Table.mk t.cols (t.rows.filter
        (satisfies "Name" "2023_Team" "Economy" "Average" pn1 tms1 none none
          t.cols)))
      none none ra2 rb2
      (fun h => Bool.noConfusion h) (fun h => Bool.noConfusion h)
      (fun h => Bool.noConfusion h)
      (fun h => colNumB_filter (hec2 h)) (fun h => colNumB_filter (hav2 h))]
    simp only [tableColsMk, tableRowsMk]
    rw [filter_bowling_ok hn1 hp1 ht1 hec2 hav2, List.filter_filter]
    refine congrArg Except.ok (congrArg (Table.mk t.cols)
      (List.filter_congr fun x hx => ?_))
    simp only [satisfies, critName_none, critTeams_none, critRange_none,
      Bool.true_and, Bool.and_true]
    cases critName "Name" pn1 t.cols x <;>
      cases critTeams "2023_Team" tms1 t.cols x <;>
        cases critRange "Economy" ra2 t.cols x <;>
          cases critRange "Average" rb2 t.cols x <;> rfl
  · rw [filter_batting_ok hn1 hp1 ht1 hsr1 hhs1]
    simp only [exceptBindOkB]
    rw [filter_batting_ok
      (t := Table.mk t.cols (t.rows.filter
        (satisfies "Name" "2023_Team" "Strike_rate" "Highest_score" pn1 tms1
          ra1 rb1 t.cols)))
      (fun h => colStrB_filter (hn2 h)) (fun h => hp2 h) (fun h => ht2 h)
      (fun h => colNumB_filter (hsr2 h)) (fun h => colNumB_filter (hhs2 h))]
    simp only [tableColsMk, tableRowsMk]
    rw [List.filter_filter]
    exact congrArg Except.ok (congrArg (Table.mk t.cols)
      (List.filter_congr fun x hx => Bool.and_comm _ _))
  · rw [filter_batting_ok hn1 hp1 ht1 (fun h => Bool.noConfusion h)
      (fun h => Bool.noConfusion h)]
    simp only [exceptBindOkB]
    rw [@filter_batting_ok
      (Table.mk t.cols (t.rows.filter
        (satisfies "Name" "2023_Team" "Strike_rate" "Highest_score" pn1 tms1
          none none t.cols)))
      none none ra2 rb2
      (fun h => Bool.noConfusion h) (fun h => Bool.noConfusion h)
      (fun h => Bool.noConfusion h)
      (fun h => colNumB_filter (hsr2 h)) (fun h => colNumB_filter (hhs2 h))]
    simp only [tableColsMk, tableRowsMk]
    rw [filter_batting_ok hn1 hp1 ht1 hsr2 hhs2, List.filter_filter]
    refine congrArg Except.ok (congrArg (Table.mk t.cols)
      (List.filter_congr fun x hx => ?_))
    simp only [satisfies, critName_none, critTeams_none, critRange_none,
      Bool.true_and, Bool.and_true]
    cases critName "Name" pn1 t.cols x <;>
      cases critTeams "2023_Team" tms1 t.cols x <;>
        cases critRange "Strike_rate" ra2 t.cols x <;>
          cases critRange "Highest_score" rb2 t.cols x <;> rfl

/-- Witness for C4: on `sampleTable`, a name+teams filter followed by a
ranges-only filter equals the single combined call. -/
theorem C4_filter_compose_witness :
    colStrB sampleTable "Name" = true ∧
    patLiteral "a" = true ∧
    colPresentB sampleTable "2023_Team" = true ∧
    colNumB sampleTable "Economy" = true ∧
    colNumB sampleTable "Average" = true ∧
    colNumB sampleTable "Strike_rate" = true ∧
    colNumB sampleTable "Highest_score" = true ∧
    (filter_bowling_data sampleTable (some "a") (some ["GT"]) none none).bind
        (fun t1 => filter_bowling_data t1 none none (some (0, 9)) (some (0, 50))) =
      filter_bowling_data sampleTable (some "a") (some ["GT"])
        (some (0, 9)) (some (0, 50)) :=
  ⟨by decide, by decide, by decide, by decide, by decide, by decide, by decide,
    (C4_filter_compose sampleTable (some "a") none (some ["GT"]) none
        none none (some (0, 9)) (some (0, 50))
        (fun _ => by decide) (fun _ => by decide) (fun _ => by decide)
        (fun _ => by decide) (fun _ => by decide) (fun _ => by decide)
        (fun _ => by decide) (fun _ => by decide) (fun _ => by decide)
        (fun _ => by decide) (fun _ => by decide) (fun _ => by decide)
        (fun _ => by decide) (fun _ => by decide)).2.1⟩

/-- C10: whenever a numeric range criterion is supplied, every row whose
value in that metric column is missing is excluded from the output — for
any bounds, including ones spanning the whole domain — so on a table with
a missing value the ranged call differs from the call omitting the range. -/
theorem C10_range_excludes_missing_values (t : Table) (lo hi lo2 hi2 : Rat)
    (he : colNumB t "Economy" = true)
    (hs : colNumB t "Strike_rate" = true) :
    (∃ resB, filter_bowling_data t none none (some (lo, hi)) none =
        Except.ok resB ∧
      (∀ r ∈ t.rows, lookupVal t.cols r "Economy" = Value.na →
        r ∉ resB.rows) ∧
      ((∃ r ∈ t.rows, lookupVal t.cols r "Economy" = Value.na) →
        filter_bowling_data t none none (some (lo, hi)) none ≠
          filter_bowling_data t none none none none)) ∧
    (∃ resS, filter_batting_data t none none (some (lo2, hi2)) none =
        Except.ok resS ∧
      (∀ r ∈ t.rows, lookupVal t.cols r "Strike_rate" = Value.na →
        r ∉ resS.rows) ∧
      ((∃ r ∈ t.rows, lookupVal t.cols r "Strike_rate" = Value.na) →
        filter_batting_data t none none (some (lo2, hi2)) none ≠
          filter_batting_data t none none none none)) := by
  constructor
  · have e1 := @filter_bowling_ok t none none (some (lo, hi)) none
      (fun h => Bool.noConfusion h) (fun h => Bool.noConfusion h)
      (fun h => Bool.noConfusion h)
      (fun _ => he) (fun h => Bool.noConfusion h)
    have hsatna : ∀ r, lookupVal t.cols r "Economy" = Value.na →
        satisfies "Name" "2023_Team" "Economy" "Average" none none
          (some (lo, hi)) none t.cols r = false := by
      intro r hna
      simp only [satisfies, critName_none, critTeams_none, critRange_none,
        Bool.true_and, Bool.and_true, critRange, hna]
      rfl
    refine ⟨_, e1, ?_, ?_⟩
    · intro r hr hna hmem
      rw [tableRowsMk] at hmem
      have := (List.mem_filter.mp hmem).2
      rw [hsatna r hna] at this
      exact Bool.noConfusion this
    · rintro ⟨r, hr, hna⟩ heq
      have hlt : (t.rows.filter
          (satisfies "Name" "2023_Team" "Economy" "Average" none none
            (some (lo, hi)) none t.cols)).length < t.rows.length :=
        List.length_filter_lt_length_iff_exists.mpr
          ⟨r, hr, by rw [hsatna r hna]; exact Bool.false_ne_true⟩
      rw [e1, show filter_bowling_data t none none none none = Except.ok t
          from rfl, Except.ok.injEq] at heq
      have hrows := congrArg Table.rows heq
      rw [tableRowsMk] at hrows
      rw [hrows] at hlt
      exact Nat.lt_irrefl _ hlt
  · have e1 := @filter_batting_ok t none none (some (lo2, hi2)) none
      (fun h => Bool.noConfusion h) (fun h => Bool.noConfusion h)
      (fun h => Bool.noConfusion h)
      (fun _ => hs) (fun h => Bool.noConfusion h)
    have hsatna : ∀ r, lookupVal t.cols r "Strike_rate" = Value.na →
        satisfies "Name" "2023_Team" "Strike_rate" "Highest_score" none none
          (some (lo2, hi2)) none t.cols r = false := by
      intro r hna
      simp only [satisfies, critName_none, critTeams_none, critRange_none,
        Bool.true_and, Bool.and_true, critRange, hna]
      rfl
    refine ⟨_, e1, ?_, ?_⟩
    · intro r hr hna hmem
      rw [tableRowsMk] at hmem
      have := (List.mem_filter.mp hmem).2
      rw [hsatna r hna] at this
      exact Bool.noConfusion this
    · rintro ⟨r, hr, hna⟩ heq
      have hlt : (t.rows.filter
          (satisfies "Name" "2023_Team" "Strike_rate" "Highest_score" none none
            (some (lo2, hi2)) none t.cols)).length < t.rows.length :=
        List.length_filter_lt_length_iff_exists.mpr
          ⟨r, hr, by rw [hsatna r hna]; exact Bool.false_ne_true⟩
      rw [e1, show filter_batting_data t none none none none = Except.ok t
          from rfl, Except.ok.injEq] at heq
      have hrows := congrArg Table.rows heq
      rw [tableRowsMk] at hrows
      rw [hrows] at hlt
      exact Nat.lt_irrefl _ hlt

/-- Witness for C10 on the table with missing numeric cells, with ranges
spanning the columns' whole domains. -/
theorem C10_range_excludes_missing_values_witness :
    colNumB sampleTableNA "Economy" = true ∧
    colNumB sampleTableNA "Strike_rate" = true ∧
    ((∃ resB, filter_bowling_data sampleTableNA none none (some (0, 10)) none =
        Except.ok resB ∧
      (∀ r ∈ sampleTableNA.rows,
        lookupVal sampleTableNA.cols r "Economy" = Value.na →
          r ∉ resB.rows) ∧
      ((∃ r ∈ sampleTableNA.rows,
          lookupVal sampleTableNA.cols r "Economy" = Value.na) →
        filter_bowling_data sampleTableNA none none (some (0, 10)) none ≠
          filter_bowling_data sampleTableNA none none none none)) ∧
    (∃ resS, filter_batting_data sampleTableNA none none (some (0, 200)) none =
        Except.ok resS ∧
      (∀ r ∈ sampleTableNA.rows,
        lookupVal sampleTableNA.cols r "Strike_rate" = Value.na →
          r ∉ resS.rows) ∧
      ((∃ r ∈ sampleTableNA.rows,
          lookupVal sampleTableNA.cols r "Strike_rate" = Value.na) →
        filter_batting_data sampleTableNA none none (some (0, 200)) none ≠
          filter_batting_data sampleTableNA none none none none))) :=
  ⟨by decide, by decide,
    C10_range_excludes_missing_values sampleTableNA 0 10 0 200
      (by decide) (by decide)⟩

/-- C5 counterexample: `sampleTableNA` has 2 rows and its second row has a
missing `Economy` cell; `nlargest` with n = 2 ≥ row count returns only the
first row (1 row, not all 2), refuting "when n is at least the row count,
it returns all rows". -/
theorem C5_top_n_counterexample :
    sampleTableNA.rows.length = 2 ∧
    nlargest sampleTableNA 2 "Economy" =
      Except.ok ⟨sampleTableNA.cols,
        [[Value.str "A", Value.str "X", Value.num 6, Value.num 20,
          Value.num 100, Value.num 30]]⟩ ∧
    (Table.mk sampleTableNA.cols
      [[Value.str "A", Value.str "X", Value.num 6, Value.num 20,
        Value.num 100, Value.num 30]]).rows.length = 1 :=
  ⟨rfl, rfl, rfl⟩

/-- C5 (amended): for a numeric (possibly partially missing) metric
column, `nlargest` succeeds, preserves the column list, and returns the
image of a list `el` of position-tagged rows that is drawn from the rows
with a non-missing metric value (`keyedRows`), is sorted descending by
metric with ties in original row order (`rankOrd`), has
`min n (number of non-missing rows)` entries, selects only largest values
(everything left out is bounded by everything kept), and — when n is at
least the row count — consists of exactly the rows with a non-missing
metric value; rows with a missing metric value are always dropped. -/
theorem C5_top_n_amended (t : Table) (n : Nat) (col : String) (i : Nat)
    (hidx : idxOfCol t.cols col = some i)
    (hnum : t.rows.all (fun r => notStrB (r.getD i Value.na)) = true) :
    ∃ (res : Table) (el : List (Rat × Nat × List Value)),
      nlargest t n col = Except.ok res ∧
      res.cols = t.cols ∧
      res.rows = el.map (fun e => e.2.2) ∧
      el.Pairwise rankOrd ∧
      el.Subperm (keyedRows t.rows i) ∧
      el.length = min n (keyedRows t.rows i).length ∧
      (∀ p ∈ keyedRows t.rows i, p ∉ el → ∀ q ∈ el, p.1 ≤ q.1) ∧
      (t.rows.length ≤ n → el.Perm (keyedRows t.rows i)) := by
  have hc : colIdx t col = Except.ok i := by unfold colIdx; rw [hidx]
  have hnl : nlargest t n col = Except.ok ⟨t.cols,
      ((List.insertionSort rankOrd (keyedRows t.rows i)).take n).map
        (fun e => e.2.2)⟩ := by
    unfold nlargest
    rw [hc]
    simp only [exceptBindOk]
    rw [if_pos hnum]
    rfl
  set S := List.insertionSort rankOrd (keyedRows t.rows i) with hS
  have hperm : S.Perm (keyedRows t.rows i) := List.perm_insertionSort _ _
  have hsort : List.Pairwise rankOrd S := List.sorted_insertionSort rankOrd _
  refine ⟨_, S.take n, hnl, rfl, rfl, ?_, ?_, ?_, ?_, ?_⟩
  · exact List.Pairwise.sublist (List.take_sublist n S) hsort
  · exact ((List.take_sublist n S).subperm).trans hperm.subperm
  · rw [List.length_take, hperm.length_eq]
  · intro p hp hpel q hq
    have hpS : p ∈ S := hperm.mem_iff.mpr hp
    have hsplit := List.take_append_drop n S
    have hpd : p ∈ S.drop n := by
      rw [← hsplit, List.mem_append] at hpS
      rcases hpS with h | h
      · exact absurd h hpel
      · exact h
    have hpair := hsort
    rw [← hsplit] at hpair
    have h3 := (List.pairwise_append.mp hpair).2.2 q hq p hpd
    rcases h3 with h | ⟨h, h2⟩
    · exact le_of_lt h
    · exact le_of_eq h.symm
  · intro hn
    have hkle : (keyedRows t.rows i).length ≤ t.rows.length :=
      le_trans (List.length_filterMap_le _ _) (le_of_eq List.enum_length)
    have hSn : S.length ≤ n := by
      rw [hperm.length_eq]
      exact le_trans hkle hn
    rw [List.take_of_length_le hSn]
    exact hperm

/-- Witness for the amended C5 on the table with a missing `Economy`
cell. -/
theorem C5_top_n_amended_witness :
    idxOfCol sampleTableNA.cols "Economy" = some 2 ∧
    sampleTableNA.rows.all
      (fun r => notStrB (r.getD 2 Value.na)) = true ∧
    (∃ (res : Table) (el : List (Rat × Nat × List Value)),
      nlargest sampleTableNA 2 "Economy" = Except.ok res ∧
      res.cols = sampleTableNA.cols ∧
      res.rows = el.map (fun e => e.2.2) ∧
      el.Pairwise rankOrd ∧
      el.Subperm (keyedRows sampleTableNA.rows 2) ∧
      el.length = min 2 (keyedRows sampleTableNA.rows 2).length ∧
      (∀ p ∈ keyedRows sampleTableNA.rows 2, p ∉ el →
        ∀ q ∈ el, p.1 ≤ q.1) ∧
      (sampleTableNA.rows.length ≤ 2 →
        el.Perm (keyedRows sampleTableNA.rows 2))) :=
  ⟨rfl, by decide,
    C5_top_n_amended sampleTableNA 2 "Economy" 2 rfl (by decide)⟩

/-! ## Lemmas about column lookup and the inner merge -/

theorem idxOfCol_lt_length : ∀ {l : List String} {c : String} {i : Nat},
    idxOfCol l c = some i → i < l.length := by
  intro l
  induction l with
  | nil => intro c i h; exact Option.noConfusion h
  | cons d ds ih =>
    intro c i h
    unfold idxOfCol at h
    by_cases hd : d = c
    · rw [if_pos hd, Option.some.injEq] at h
      rw [← h]
      exact Nat.succ_pos _
    · rw [if_neg hd] at h
      cases hj : idxOfCol ds c with
      | none => rw [hj] at h; exact Option.noConfusion h
      | some j =>
        rw [hj] at h
        simp only [Option.map_some', Option.some.injEq] at h
        rw [← h, List.length_cons]
        exact Nat.succ_lt_succ (ih hj)

theorem idxOfCol_mem : ∀ {l : List String} {c : String}, c ∈ l →
    ∃ i, idxOfCol l c = some i := by
  intro l
  induction l with
  | nil => intro c h; exact absurd h (List.not_mem_nil c)
  | cons d ds ih =>
    intro c h
    unfold idxOfCol
    by_cases hd : d = c
    · exact ⟨0, by rw [if_pos hd]⟩
    · rcases List.mem_cons.mp h with h1 | h1
      · exact absurd h1.symm hd
      · obtain ⟨i, hi⟩ := ih h1
        exact ⟨i + 1, by rw [if_neg hd, hi]; rfl⟩

theorem idxOfCol_append_left : ∀ {l1 l2 : List String} {c : String} {i : Nat},
    idxOfCol l1 c = some i → idxOfCol (l1 ++ l2) c = some i := by
  intro l1
  induction l1 with
  | nil => intro l2 c i h; exact Option.noConfusion h
  | cons d ds ih =>
    intro l2 c i h
    simp only [idxOfCol, List.cons_append, List.append_eq] at h ⊢
    by_cases hd : d = c
    · rw [if_pos hd] at h ⊢; exact h
    · rw [if_neg hd] at h ⊢
      cases hj : idxOfCol ds c with
      | none => rw [hj] at h; exact Option.noConfusion h
      | some j => rw [hj] at h; rw [ih hj]; exact h

theorem idxOfCol_append_none : ∀ {l1 l2 : List String} {c : String},
    idxOfCol l1 c = none →
    idxOfCol (l1 ++ l2) c = (idxOfCol l2 c).map (· + l1.length) := by
  intro l1
  induction l1 with
  | nil =>
    intro l2 c h
    show idxOfCol l2 c = (idxOfCol l2 c).map (· + 0)
    cases hj : idxOfCol l2 c <;> simp
  | cons d ds ih =>
    intro l2 c h
    simp only [idxOfCol, List.cons_append, List.append_eq] at h ⊢
    by_cases hd : d = c
    · rw [if_pos hd] at h; exact Option.noConfusion h
    · rw [if_neg hd] at h ⊢
      have hds : idxOfCol ds c = none := by
        cases hj : idxOfCol ds c with
        | none => rfl
        | some j => rw [hj] at h; exact Option.noConfusion h
      rw [ih hds]
      cases hj : idxOfCol l2 c with
      | none => rfl
      | some j =>
        simp only [Option.map_some', Option.some.injEq, List.length_cons]
        omega

theorem string_append_right_cancel {a b s : String} (h : a ++ s = b ++ s) :
    a = b := by
  have h2 := congrArg String.data h
  rw [String.data_append, String.data_append] at h2
  exact String.ext (List.append_cancel_right h2)

theorem keyIdxs_ok {t : Table} : ∀ {keys : List String},
    (∀ k ∈ keys, (idxOfCol t.cols k).isSome = true) →
    ∃ is, keyIdxs t keys = Except.ok is ∧
      List.Forall₂ (fun k i => idxOfCol t.cols k = some i) keys is := by
  intro keys
  induction keys with
  | nil => intro h; exact ⟨[], rfl, List.Forall₂.nil⟩
  | cons k ks ih =>
    intro h
    obtain ⟨i, hi⟩ := Option.isSome_iff_exists.mp (h k (by simp))
    obtain ⟨is, his, hf⟩ := ih (fun x hx => h x (by simp [hx]))
    refine ⟨i :: is, ?_, List.Forall₂.cons hi hf⟩
    unfold keyIdxs
    rw [show colIdx t k = Except.ok i from by unfold colIdx; rw [hi]]
    simp only [exceptBindOk]
    rw [his]
    rfl

theorem rowKey_eq_map {cols : List String} : ∀ {keys : List String}
    {is : List Nat},
    List.Forall₂ (fun k i => idxOfCol cols k = some i) keys is →
    ∀ r : List Value,
      rowKey is r = keys.map (fun k => lookupVal cols r k) := by
  intro keys is h
  induction h with
  | nil => intro r; rfl
  | @cons k i ks js hki hrest ih =>
    intro r
    simp only [rowKey, List.map_cons] at ih ⊢
    exact congrArg₂ List.cons (lookupVal_eq_getD hki r).symm (ih r)

theorem filterCond_eq_keysMatch {acols bcols : List String}
    {keys : List String} {ia ib : List Nat}
    (ha : List.Forall₂ (fun k i => idxOfCol acols k = some i) keys ia)
    (hb : List.Forall₂ (fun k i => idxOfCol bcols k = some i) keys ib)
    (ra rb : List Value) :
    decide (rowKey ib rb = rowKey ia ra) = keysMatch keys acols bcols ra rb := by
  rw [rowKey_eq_map hb, rowKey_eq_map ha]
  unfold keysMatch
  by_cases h : List.map (fun k => lookupVal bcols rb k) keys =
      List.map (fun k => lookupVal acols ra k) keys
  · rw [decide_eq_true h]
    symm
    rw [List.all_eq_true]
    intro k hk
    rw [decide_eq_true_eq]
    exact (List.map_eq_map_iff.mp h k hk).symm
  · rw [decide_eq_false h]
    symm
    rw [← Bool.not_eq_true, List.all_eq_true]
    intro hall
    exact h (List.map_eq_map_iff.mpr
      (fun k hk => (decide_eq_true_eq.mp (hall k hk)).symm))

theorem keepColsFrom_snd_mem {keys : List String} :
    ∀ {cols : List String} {n : Nat} {p : Nat × String},
      p ∈ keepColsFrom keys n cols → p.2 ∈ cols := by
  intro cols
  induction cols with
  | nil => intro n p h; exact absurd h (List.not_mem_nil p)
  | cons c cs ih =>
    intro n p h
    unfold keepColsFrom at h
    by_cases hc : keys.contains c
    · rw [if_pos hc] at h
      exact List.mem_cons_of_mem c (ih h)
    · rw [if_neg hc] at h
      rcases List.mem_cons.mp h with h1 | h1
      · rw [h1]; exact List.mem_cons_self c cs
      · exact List.mem_cons_of_mem c (ih h1)

theorem keepColsFrom_find {keys : List String} {m : String}
    (hmk : keys.contains m = false) :
    ∀ {cols : List String} {n im : Nat},
      idxOfCol cols m = some im →
      ∃ j, idxOfCol ((keepColsFrom keys n cols).map Prod.snd) m = some j ∧
        (keepColsFrom keys n cols).getD j (0, "") = (n + im, m) ∧
        j < (keepColsFrom keys n cols).length := by
  intro cols
  induction cols with
  | nil => intro n im h; exact Option.noConfusion h
  | cons c cs ih =>
    intro n im h
    unfold idxOfCol at h
    by_cases hc : c = m
    · rw [if_pos hc, Option.some.injEq] at h
      subst hc
      unfold keepColsFrom
      rw [if_neg (by rw [hmk]; exact Bool.false_ne_true)]
      refine ⟨0, ?_, ?_, ?_⟩
      · simp only [List.map_cons]
        unfold idxOfCol
        rw [if_pos rfl]
      · rw [← h]; rfl
      · simp only [List.length_cons]
        exact Nat.succ_pos _
    · rw [if_neg hc] at h
      cases him : idxOfCol cs m with
      | none => rw [him] at h; exact Option.noConfusion h
      | some im2 =>
        rw [him] at h
        simp only [Option.map_some', Option.some.injEq] at h
        unfold keepColsFrom
        by_cases hck : keys.contains c
        · rw [if_pos hck]
          obtain ⟨j, hj1, hj2, hj3⟩ := ih (n := n + 1) him
          refine ⟨j, hj1, ?_, hj3⟩
          rw [hj2, ← h]
          refine congrArg₂ Prod.mk ?_ rfl
          omega
        · rw [if_neg hck]
          obtain ⟨j, hj1, hj2, hj3⟩ := ih (n := n + 1) him
          refine ⟨j + 1, ?_, ?_, ?_⟩
          · simp only [List.map_cons]
            unfold idxOfCol
            rw [if_neg hc, hj1]
            rfl
          · rw [show ((n, c) :: keepColsFrom keys (n + 1) cs).getD (j + 1)
                (0, "") = (keepColsFrom keys (n + 1) cs).getD j (0, "")
                from rfl, hj2, ← h]
            refine congrArg₂ Prod.mk ?_ rfl
            omega
          · simp only [List.length_cons]
            exact Nat.succ_lt_succ hj3

theorem idxOf_renamed {acols : List String} {sfx m : String}
    (hma : acols.contains m = true) :
    ∀ {L : List (Nat × String)} {j : Nat},
      (∀ p ∈ L, p.2 ≠ m ++ sfx) →
      idxOfCol (L.map Prod.snd) m = some j →
      idxOfCol (L.map (fun p => renameCol acols sfx p.2)) (m ++ sfx) = some j := by
  intro L
  induction L with
  | nil => intro j hcl h; exact Option.noConfusion h
  | cons p ps ih =>
    intro j hcl h
    simp only [List.map_cons] at h ⊢
    unfold idxOfCol at h ⊢
    by_cases hp : p.2 = m
    · rw [if_pos hp, Option.some.injEq] at h
      have hrn : renameCol acols sfx p.2 = m ++ sfx := by
        unfold renameCol
        rw [hp, if_pos hma]
      rw [if_pos hrn, h]
    · rw [if_neg hp] at h
      cases hj : idxOfCol (ps.map Prod.snd) m with
      | none => rw [hj] at h; exact Option.noConfusion h
      | some j2 =>
        rw [hj] at h
        have hne : ¬ renameCol acols sfx p.2 = m ++ sfx := by
          unfold renameCol
          by_cases hpa : acols.contains p.2
          · rw [if_pos hpa]
            intro he
            exact hp (string_append_right_cancel he)
          · rw [if_neg hpa]
            exact hcl p (List.mem_cons_self p ps)
        rw [if_neg hne, ih (fun q hq => hcl q (List.mem_cons_of_mem p hq)) hj]
        exact h

theorem mapME_ok_of_all {α β : Type} {f : α → Except String β} :
    ∀ {l : List α}, (∀ x ∈ l, ∃ y, f x = Except.ok y) →
      ∃ out, mapME f l = Except.ok out := by
  intro l
  induction l with
  | nil => intro h; exact ⟨[], rfl⟩
  | cons a as ih =>
    intro h
    obtain ⟨y, hy⟩ := h a (by simp)
    obtain ⟨out, hout⟩ := ih (fun x hx => h x (by simp [hx]))
    refine ⟨y :: out, ?_⟩
    unfold mapME
    rw [hy]
    simp only [exceptBindOk]
    rw [hout]
    rfl

theorem mapME_mem {α β : Type} {f : α → Except String β} :
    ∀ {l : List α} {out : List β}, mapME f l = Except.ok out →
      ∀ y ∈ out, ∃ x ∈ l, f x = Except.ok y := by
  intro l
  induction l with
  | nil =>
    intro out h y hy
    unfold mapME at h
    rw [Except.ok.injEq] at h
    rw [← h] at hy
    exact absurd hy (List.not_mem_nil y)
  | cons a as ih =>
    intro out h y hy
    unfold mapME at h
    cases ha : f a with
    | error e => rw [ha, exceptBindErr] at h; exact Except.noConfusion h
    | ok b =>
      rw [ha] at h; simp only [exceptBindOk] at h
      cases hrest : mapME f as with
      | error e => rw [hrest, exceptBindErr] at h; exact Except.noConfusion h
      | ok rest =>
        rw [hrest] at h
        simp only [exceptBindOk, exceptPureEq, Except.ok.injEq] at h
        rw [← h] at hy
        rcases List.mem_cons.mp hy with h1 | h1
        · exact ⟨a, by simp, by rw [ha, h1]⟩
        · obtain ⟨x, hx, hfx⟩ := ih hrest y h1
          exact ⟨x, by simp [hx], hfx⟩

theorem mapME_nil {α β : Type} {f : α → Except String β} {out : List β}
    (h : mapME f [] = Except.ok out) : out = [] := by
  unfold mapME at h
  rw [Except.ok.injEq] at h
  exact h.symm

theorem isNumB_elim {v : Value} (h : isNumB v = true) :
    ∃ x, v = Value.num x := by
  cases v with
  | num q => exact ⟨q, rfl⟩
  | na => exact Bool.noConfusion h
  | str s => exact Bool.noConfusion h

/-- C2: under the schema assumptions of the comparison (key columns
present in both tables, metric column present in both, numeric, not a key,
and no pre-existing suffixed name), `compare_team_performance` succeeds;
every returned row comes from a left row and a right row whose key tuples
agree (inner join: unmatched rows contribute nothing), and its appended
`<metric>_Difference` cell is exactly `A.metric - B.metric` for that pair;
when no key tuple matches at all the result has zero rows and is still not
an error. -/
theorem C2_compare_inner_join_difference (a b : Table) (m : String)
    (hka : ∀ k ∈ ["2022_Team", "2023_Team", "Country"],
      (idxOfCol a.cols k).isSome = true)
    (hkb : ∀ k ∈ ["2022_Team", "2023_Team", "Country"],
      (idxOfCol b.cols k).isSome = true)
    (hma : m ∈ a.cols) (hmb : m ∈ b.cols)
    (hmk : (["2022_Team", "2023_Team", "Country"].contains m) = false)
    (hca : (m ++ "_2022") ∉ a.cols) (hcb : (m ++ "_2022") ∉ b.cols)
    (hlena : ∀ r ∈ a.rows, r.length = a.cols.length)
    (hnuma : ∀ r ∈ a.rows, isNumB (lookupVal a.cols r m) = true)
    (hnumb : ∀ r ∈ b.rows, isNumB (lookupVal b.cols r m) = true) :
    ∃ res, compare_team_performance a b m = Except.ok res ∧
      (∀ row ∈ res.rows,
        ∃ ra, ra ∈ a.rows ∧ ∃ rb, rb ∈ b.rows ∧
          keysMatch ["2022_Team", "2023_Team", "Country"] a.cols b.cols ra rb
            = true ∧
          ∃ x y : Rat, lookupVal a.cols ra m = Value.num x ∧
            lookupVal b.cols rb m = Value.num y ∧
            row.getLast? = some (Value.num (x - y))) ∧
      ((∀ ra ∈ a.rows, ∀ rb ∈ b.rows,
          keysMatch ["2022_Team", "2023_Team", "Country"] a.cols b.cols ra rb
            = false) → res.rows = []) := by
  set K : List String := ["2022_Team", "2023_Team", "Country"] with hK
  obtain ⟨ia, hia, hfa⟩ := keyIdxs_ok (t := a) hka
  obtain ⟨ib, hib, hfb⟩ := keyIdxs_ok (t := b) hkb
  obtain ⟨iA, hiA⟩ := idxOfCol_mem hma
  have hltA : iA < a.cols.length := idxOfCol_lt_length hiA
  obtain ⟨im, him⟩ := idxOfCol_mem hmb
  obtain ⟨j, hj1, hj2, hj3⟩ := keepColsFrom_find (m := m) hmk (n := 0) him
  have hj1k : idxOfCol ((keepCols b.cols K).map Prod.snd) m = some j := hj1
  have hj2k : (keepCols b.cols K).getD j (0, "") = (0 + im, m) := hj2
  have hj3k : j < (keepCols b.cols K).length := hj3
  set Mcols := a.cols ++
    (keepCols b.cols K).map (fun p => renameCol a.cols "_2022" p.2) with hMcols
  set MR := a.rows.flatMap (fun ra =>
    (b.rows.filter (fun rb => decide (rowKey ib rb = rowKey ia ra))).map
      (fun rb => ra ++ (keepCols b.cols K).map
        (fun p => rb.getD p.1 Value.na))) with hMR
  have hmrg : mergeInner a b K "_2022" = Except.ok ⟨Mcols, MR⟩ := by
    unfold mergeInner
    rw [hia]
    simp only [exceptBindOk]
    rw [hib]
    simp only [exceptBindOk]
    rw [hMcols, hMR]
    rfl
  have hiM : idxOfCol Mcols m = some iA := by
    rw [hMcols]
    exact idxOfCol_append_left hiA
  have hnocl : ∀ p ∈ keepCols b.cols K, p.2 ≠ m ++ "_2022" := by
    intro p hp he
    exact hcb (he ▸ keepColsFrom_snd_mem hp)
  have hmacont : a.cols.contains m = true := by simpa using hma
  have hjren : idxOfCol ((keepCols b.cols K).map
      (fun p => renameCol a.cols "_2022" p.2)) (m ++ "_2022") = some j :=
    idxOf_renamed hmacont hnocl hj1k
  have hjM : idxOfCol Mcols (m ++ "_2022") = some (j + a.cols.length) := by
    rw [hMcols, idxOfCol_append_none (idxOfCol_eq_none hca), hjren]
    rfl
  have hvals : ∀ row ∈ MR,
      ∃ ra, ra ∈ a.rows ∧ ∃ rb, rb ∈ b.rows ∧
        keysMatch K a.cols b.cols ra rb = true ∧
        ∃ x y : Rat, lookupVal a.cols ra m = Value.num x ∧
          lookupVal b.cols rb m = Value.num y ∧
          row.getD iA Value.na = Value.num x ∧
          row.getD (j + a.cols.length) Value.na = Value.num y := by
    intro row hrow
    rw [hMR] at hrow
    obtain ⟨ra, hra, hmem2⟩ := List.mem_flatMap.mp hrow
    obtain ⟨rb, hrb2, hroweq⟩ := List.mem_map.mp hmem2
    have hrb : rb ∈ b.rows := (List.mem_filter.mp hrb2).1
    have hcond := (List.mem_filter.mp hrb2).2
    rw [filterCond_eq_keysMatch hfa hfb] at hcond
    obtain ⟨x, hx⟩ := isNumB_elim (hnuma ra hra)
    obtain ⟨y, hy⟩ := isNumB_elim (hnumb rb hrb)
    refine ⟨ra, hra, rb, hrb, hcond, x, y, hx, hy, ?_, ?_⟩
    · rw [← hroweq,
        List.getD_append _ _ _ iA (by rw [hlena ra hra]; exact hltA),
        ← lookupVal_eq_getD hiA]
      exact hx
    · rw [← hroweq,
        List.getD_append_right _ _ _ _
          (by rw [hlena ra hra]; exact Nat.le_add_left _ _),
        hlena ra hra, Nat.add_sub_cancel]
      have hjlen : j < ((keepCols b.cols K).map
          (fun p => rb.getD p.1 Value.na)).length := by
        rw [List.length_map]
        exact hj3k
      rw [List.getD_eq_getElem _ _ hjlen, List.getElem_map]
      have hel : (keepCols b.cols K)[j] = ((0 + im : Nat), m) := by
        rw [← List.getD_eq_getElem _ ((0 : Nat), "") hj3k]
        exact hj2k
      rw [hel]
      show rb.getD (0 + im) Value.na = Value.num y
      rw [Nat.zero_add, ← lookupVal_eq_getD him]
      exact hy
  have hfok : ∀ row ∈ MR, ∃ out1,
      (do
        let d ← valSub (row.getD iA Value.na)
          (row.getD (j + a.cols.length) Value.na)
        pure (row ++ [d]) : Except String (List Value)) = Except.ok out1 := by
    intro row hrow
    obtain ⟨ra, hra, rb, hrb, hc, x, y, hx, hy, hgx, hgy⟩ := hvals row hrow
    refine ⟨row ++ [Value.num (x - y)], ?_⟩
    rw [hgx, hgy]
    rfl
  obtain ⟨out, hout⟩ := mapME_ok_of_all hfok
  have hcompare : compare_team_performance a b m =
      Except.ok ⟨Mcols ++ [m ++ "_Difference"], out⟩ := by
    unfold compare_team_performance
    rw [← hK, hmrg]
    simp only [exceptBindOk]
    rw [show colIdx (Table.mk Mcols MR) m = Except.ok iA from by
      unfold colIdx; simp only [tableColsMk]; rw [hiM]]
    simp only [exceptBindOk]
    rw [show colIdx (Table.mk Mcols MR) (m ++ "_2022") =
        Except.ok (j + a.cols.length) from by
      unfold colIdx; simp only [tableColsMk]; rw [hjM]]
    simp only [exceptBindOk, tableColsMk, tableRowsMk]
    rw [hout]
    rfl
  refine ⟨⟨Mcols ++ [m ++ "_Difference"], out⟩, hcompare, ?_, ?_⟩
  · intro row hrow
    rw [tableRowsMk] at hrow
    obtain ⟨mrow, hmrow, hfeq⟩ := mapME_mem hout row hrow
    obtain ⟨ra, hra, rb, hrb, hc, x, y, hx, hy, hgx, hgy⟩ := hvals mrow hmrow
    refine ⟨ra, hra, rb, hrb, hc, x, y, hx, hy, ?_⟩
    rw [hgx, hgy] at hfeq
    rw [show valSub (Value.num x) (Value.num y) =
        Except.ok (Value.num (x - y)) from rfl] at hfeq
    simp only [exceptBindOk, exceptPureEq, Except.ok.injEq] at hfeq
    rw [← hfeq, List.getLast?_concat]
  · intro hnone
    have hMRnil : MR = [] := by
      rw [List.eq_nil_iff_forall_not_mem]
      intro row hrow
      obtain ⟨ra, hra, rb, hrb, hc, _⟩ := hvals row hrow
      rw [hnone ra hra rb hrb] at hc
      exact Bool.noConfusion hc
    rw [tableRowsMk]
    rw [hMRnil] at hout
    exact mapME_nil hout

/-- Witness for C2 on two small concrete tables sharing one key tuple. -/
theorem C2_compare_inner_join_difference_witness :
    ("Wickets" ∈ sampleCmpA.cols) ∧ ("Wickets" ∈ sampleCmpB.cols) ∧
    (∀ r ∈ sampleCmpA.rows, isNumB (lookupVal sampleCmpA.cols r "Wickets")
      = true) ∧
    (∃ res, compare_team_performance sampleCmpA sampleCmpB "Wickets" =
        Except.ok res ∧
      (∀ row ∈ res.rows,
        ∃ ra, ra ∈ sampleCmpA.rows ∧ ∃ rb, rb ∈ sampleCmpB.rows ∧
          keysMatch ["2022_Team", "2023_Team", "Country"] sampleCmpA.cols
            sampleCmpB.cols ra rb = true ∧
          ∃ x y : Rat, lookupVal sampleCmpA.cols ra "Wickets" = Value.num x ∧
            lookupVal sampleCmpB.cols rb "Wickets" = Value.num y ∧
            row.getLast? = some (Value.num (x - y))) ∧
      ((∀ ra ∈ sampleCmpA.rows, ∀ rb ∈ sampleCmpB.rows,
          keysMatch ["2022_Team", "2023_Team", "Country"] sampleCmpA.cols
            sampleCmpB.cols ra rb = false) → res.rows = [])) :=
  ⟨by decide, by decide, by decide,
    C2_compare_inner_join_difference sampleCmpA sampleCmpB "Wickets"
      (by decide) (by decide) (by decide) (by decide) (by decide)
      (by decide) (by decide) (by decide) (by decide) (by decide)⟩

/-! ## Lemmas about the Pearson entries -/

theorem rsum_nonneg : ∀ {l : List Rat}, (∀ x ∈ l, 0 ≤ x) → 0 ≤ rsum l := by
  intro l
  induction l with
  | nil => intro h; exact le_refl 0
  | cons a as ih =>
    intro h
    have h1 := h a (by simp)
    have h2 := ih (fun x hx => h x (by simp [hx]))
    show 0 ≤ a + rsum as
    exact add_nonneg h1 h2

theorem rsum_zero_of_nonneg : ∀ {l : List Rat}, (∀ x ∈ l, 0 ≤ x) →
    rsum l = 0 → ∀ x ∈ l, x = 0 := by
  intro l
  induction l with
  | nil => intro h hz x hx; exact absurd hx (List.not_mem_nil x)
  | cons a as ih =>
    intro h hz x hx
    have h1 := h a (by simp)
    have h2 : ∀ y ∈ as, (0 : Rat) ≤ y := fun y hy => h y (by simp [hy])
    have h3 : (0 : Rat) ≤ rsum as := rsum_nonneg h2
    have hz2 : a + rsum as = 0 := hz
    have ha0 : a = 0 := by linarith
    rcases List.mem_cons.mp hx with h4 | h4
    · rw [h4]; exact ha0
    · exact ih h2 (by linarith) x h4

theorem rsum_const : ∀ {l : List Rat} {c : Rat}, (∀ x ∈ l, x = c) →
    rsum l = c * l.length := by
  intro l
  induction l with
  | nil => intro c h; simp [rsum]
  | cons a as ih =>
    intro c h
    have h1 := h a (by simp)
    have h2 := ih (fun x hx => h x (by simp [hx]))
    show a + rsum as = c * ((a :: as).length : Rat)
    rw [h1, h2, List.length_cons]
    push_cast
    ring

theorem rmean_const {l : List Rat} {c : Rat} (hne : l ≠ [])
    (h : ∀ x ∈ l, x = c) : rmean l = c := by
  unfold rmean
  rw [rsum_const h]
  have hlen : (l.length : Rat) ≠ 0 := by
    rw [Nat.cast_ne_zero]
    exact fun h0 => hne (List.length_eq_zero.mp h0)
  exact mul_div_cancel_right₀ c hlen

theorem svar_const : ∀ {l : List Rat} {c : Rat}, (∀ x ∈ l, x = c) →
    svarOf l = 0 := by
  intro l c h
  cases hl : l with
  | nil => rfl
  | cons a as =>
    rw [← hl]
    unfold svarOf
    have hm : rmean l = c := rmean_const (by rw [hl]; exact List.cons_ne_nil a as) h
    have : ∀ y ∈ l.map (fun x => (x - rmean l) * (x - rmean l)), y = (0 : Rat) := by
      intro y hy
      obtain ⟨x, hx, hxy⟩ := List.mem_map.mp hy
      rw [← hxy, hm, h x hx]
      ring
    rw [rsum_const this]
    ring

theorem svar_eq_zero_all_eq {l : List Rat} (h : svarOf l = 0) :
    ∀ x ∈ l, x = rmean l := by
  intro x hx
  have hnn : ∀ y ∈ l.map (fun x => (x - rmean l) * (x - rmean l)), (0 : Rat) ≤ y := by
    intro y hy
    obtain ⟨z, hz, hzy⟩ := List.mem_map.mp hy
    rw [← hzy]
    exact mul_self_nonneg _
  have h0 := rsum_zero_of_nonneg hnn h _
    (List.mem_map_of_mem (fun x => (x - rmean l) * (x - rmean l)) hx)
  have := mul_self_eq_zero.mp h0
  exact sub_eq_zero.mp this

theorem map_fst_swap (ps : List (Rat × Rat)) :
    (ps.map Prod.swap).map Prod.fst = ps.map Prod.snd := by
  rw [List.map_map]
  exact List.map_eq_map_iff.mpr (fun a _ => rfl)

theorem map_snd_swap (ps : List (Rat × Rat)) :
    (ps.map Prod.swap).map Prod.snd = ps.map Prod.fst := by
  rw [List.map_map]
  exact List.map_eq_map_iff.mpr (fun a _ => rfl)

theorem isEmpty_map_swap (ps : List (Rat × Rat)) :
    (ps.map Prod.swap).isEmpty = ps.isEmpty := by
  cases ps <;> rfl

theorem sxyOf_swap (ps : List (Rat × Rat)) :
    sxyOf (ps.map Prod.swap) = sxyOf ps := by
  unfold sxyOf
  rw [map_fst_swap, map_snd_swap, List.map_map]
  refine congrArg rsum (List.map_eq_map_iff.mpr (fun a _ => ?_))
  show (a.2 - rmean (ps.map Prod.snd)) * (a.1 - rmean (ps.map Prod.fst)) =
    (a.1 - rmean (ps.map Prod.fst)) * (a.2 - rmean (ps.map Prod.snd))
  ring

theorem corrEntryPairs_map_swap (ps : List (Rat × Rat)) :
    corrEntryPairs (ps.map Prod.swap) = corrEntryPairs ps := by
  unfold corrEntryPairs
  rw [map_fst_swap, map_snd_swap, sxyOf_swap, isEmpty_map_swap]
  by_cases he : ps.isEmpty = true
  · rw [if_pos he, if_pos he]
  · rw [if_neg he, if_neg he]
    by_cases hz : svarOf (ps.map Prod.fst) = 0 ∨ svarOf (ps.map Prod.snd) = 0
    · rw [if_pos (Or.symm hz), if_pos hz]
    · rw [if_neg (fun hc => hz (Or.symm hc)), if_neg hz, mul_comm]

theorem pairComplete_comm : ∀ (xs ys : List Value),
    pairComplete ys xs = (pairComplete xs ys).map Prod.swap := by
  intro xs
  induction xs with
  | nil => intro ys; cases ys with
    | nil => rfl
    | cons y ys => cases y <;> rfl
  | cons x xs ih =>
    intro ys
    cases ys with
    | nil => cases x <;> rfl
    | cons y ys =>
      cases x <;> cases y <;> simp [pairComplete, ih ys, Prod.swap]

theorem corrEntry_pure_symm (A B : List Value) :
    corrEntryPairs (pairComplete B A) = corrEntryPairs (pairComplete A B) := by
  rw [pairComplete_comm A B, corrEntryPairs_map_swap]

theorem pairComplete_diag : ∀ (xs : List Value),
    pairComplete xs xs = (numsOf xs).map (fun a => (a, a)) := by
  intro xs
  induction xs with
  | nil => rfl
  | cons x xs ih => cases x <;> simp [pairComplete, numsOf, ih]

theorem pairComplete_fst_mem : ∀ (xs ys : List Value) (v : Rat),
    v ∈ (pairComplete xs ys).map Prod.fst → v ∈ numsOf xs := by
  intro xs
  induction xs with
  | nil => intro ys v h; cases ys with
    | nil => exact absurd h (List.not_mem_nil v)
    | cons y ys => exact absurd h (List.not_mem_nil v)
  | cons x xs ih =>
    intro ys v h
    cases ys with
    | nil => cases x <;> exact absurd h (List.not_mem_nil v)
    | cons y ys =>
      cases x with
      | num a =>
        cases y with
        | num b =>
          rcases List.mem_cons.mp h with h1 | h1
          · rw [h1]; show a ∈ numsOf (Value.num a :: xs); simp [numsOf]
          · have := ih ys v h1
            show v ∈ numsOf (Value.num a :: xs)
            simp [numsOf] at this ⊢
            exact Or.inr this
        | na => exact (by simp [numsOf]; exact Or.inr (by simpa [numsOf] using ih ys v h))
        | str s => exact (by simp [numsOf]; exact Or.inr (by simpa [numsOf] using ih ys v h))
      | na => exact (by simpa [numsOf] using ih ys v h)
      | str s => exact (by simpa [numsOf] using ih ys v h)

theorem corrEntryPairs_zerovar (xs ys : List Value)
    (h : svarOf (numsOf xs) = 0) :
    corrEntryPairs (pairComplete xs ys) = none := by
  unfold corrEntryPairs
  by_cases he : (pairComplete xs ys).isEmpty = true
  · rw [if_pos he]
  · have hz : svarOf ((pairComplete xs ys).map Prod.fst) = 0 := by
      apply svar_const (c := rmean (numsOf xs))
      intro v hv
      exact svar_eq_zero_all_eq h v (pairComplete_fst_mem xs ys v hv)
    rw [if_neg he, if_pos (Or.inl hz)]

theorem svar_nonneg (l : List Rat) : 0 ≤ svarOf l := by
  unfold svarOf
  apply rsum_nonneg
  intro y hy
  obtain ⟨x, hx, hxy⟩ := List.mem_map.mp hy
  rw [← hxy]
  exact mul_self_nonneg _

theorem corrEntryPairs_diag (xs : List Value) (e : Rat × Rat)
    (h : corrEntryPairs (pairComplete xs xs) = some e) : corrDenote e = 1 := by
  rw [pairComplete_diag] at h
  have hfst : ((numsOf xs).map (fun a => (a, a))).map Prod.fst = numsOf xs := by
    rw [List.map_map]
    exact (List.map_eq_map_iff.mpr (fun a _ => rfl)).trans (List.map_id _)
  have hsnd : ((numsOf xs).map (fun a => (a, a))).map Prod.snd = numsOf xs := by
    rw [List.map_map]
    exact (List.map_eq_map_iff.mpr (fun a _ => rfl)).trans (List.map_id _)
  have hsxy : sxyOf ((numsOf xs).map (fun a => (a, a))) = svarOf (numsOf xs) := by
    unfold sxyOf svarOf
    rw [hfst, hsnd, List.map_map]
    exact congrArg rsum (List.map_eq_map_iff.mpr (fun a _ => rfl))
  unfold corrEntryPairs at h
  rw [hfst, hsnd, hsxy] at h
  by_cases he : ((numsOf xs).map (fun a => (a, a))).isEmpty = true
  · rw [if_pos he] at h; exact Option.noConfusion h
  · rw [if_neg he] at h
    by_cases hz : svarOf (numsOf xs) = 0 ∨ svarOf (numsOf xs) = 0
    · rw [if_pos hz] at h; exact Option.noConfusion h
    · rw [if_neg hz, Option.some.injEq] at h
      have hs0 : svarOf (numsOf xs) ≠ 0 := fun hq => hz (Or.inl hq)
      rw [← h]
      unfold corrDenote
      show (svarOf (numsOf xs) : Real) /
        Real.sqrt ((svarOf (numsOf xs) * svarOf (numsOf xs) : Rat) : Real) = 1
      have hpos : (0 : Rat) < svarOf (numsOf xs) :=
        lt_of_le_of_ne (svar_nonneg _) (Ne.symm hs0)
      have hcast : ((svarOf (numsOf xs) * svarOf (numsOf xs) : Rat) : Real) =
          (svarOf (numsOf xs) : Real) * (svarOf (numsOf xs) : Real) := by
        push_cast
        ring
      rw [hcast, Real.sqrt_mul_self (by exact_mod_cast le_of_lt hpos)]
      exact div_self (by exact_mod_cast hs0)

theorem mapME_ok_fun {α β : Type} {f : α → Except String β} {g : α → β} :
    ∀ {l : List α}, (∀ x ∈ l, f x = Except.ok (g x)) →
      mapME f l = Except.ok (l.map g) := by
  intro l
  induction l with
  | nil => intro h; rfl
  | cons a as ih =>
    intro h
    unfold mapME
    rw [h a (by simp)]
    simp only [exceptBindOk]
    rw [ih (fun x hx => h x (by simp [hx]))]
    rfl

theorem corrEntry_ok {t : Table} {c1 c2 : String} {i j : Nat}
    (h1 : idxOfCol t.cols c1 = some i) (h2 : idxOfCol t.cols c2 = some j)
    (hn1 : (colValsD t c1).all notStrB = true)
    (hn2 : (colValsD t c2).all notStrB = true) :
    corrEntry t c1 c2 = Except.ok
      (corrEntryPairs (pairComplete (colValsD t c1) (colValsD t c2))) := by
  have hv1 : colValsD t c1 = t.rows.map (fun r => r.getD i Value.na) := by
    unfold colValsD; rw [h1]
  have hv2 : colValsD t c2 = t.rows.map (fun r => r.getD j Value.na) := by
    unfold colValsD; rw [h2]
  have hn1m : (t.rows.map (fun r => r.getD i Value.na)).all notStrB = true := by
    rw [← hv1]; exact hn1
  have hn2m : (t.rows.map (fun r => r.getD j Value.na)).all notStrB = true := by
    rw [← hv2]; exact hn2
  unfold corrEntry
  rw [show colIdx t c1 = Except.ok i from by unfold colIdx; rw [h1]]
  simp only [exceptBindOk]
  rw [show colIdx t c2 = Except.ok j from by unfold colIdx; rw [h2]]
  simp only [exceptBindOk]
  rw [if_pos (show _ = true by rw [hn1m, hn2m]; rfl)]
  rw [hv1, hv2]
  rfl

/-- C6: for a selection of numeric (possibly partially missing) columns,
the correlation-matrix computation does not raise; the resulting matrix is
symmetric entry-for-entry; every defined diagonal entry denotes the real
number 1; and a selected column with zero variance (all its non-missing
values equal, or fewer than two of them) makes every entry of its row and
column undefined (pandas `NaN`, our `none`), not an error. -/
theorem C6_correlation_matrix_properties (t : Table) (sel : List String)
    (hsel : ∀ c ∈ sel, (idxOfCol t.cols c).isSome = true ∧
      (colValsD t c).all notStrB = true) :
    ∃ M, corrMatrix t sel = Except.ok M ∧
      (∀ p q, p < sel.length → q < sel.length →
        (M.getD p []).getD q none = (M.getD q []).getD p none) ∧
      (∀ p, p < sel.length → ∀ e,
        (M.getD p []).getD p none = some e → corrDenote e = 1) ∧
      (∀ p, p < sel.length →
        svarOf (numsOf (colValsD t (sel.getD p ""))) = 0 →
        ∀ q, q < sel.length →
          (M.getD p []).getD q none = none ∧
          (M.getD q []).getD p none = none) := by
  have hentry : ∀ c1 ∈ sel, ∀ c2 ∈ sel, corrEntry t c1 c2 = Except.ok
      (corrEntryPairs (pairComplete (colValsD t c1) (colValsD t c2))) := by
    intro c1 hc1 c2 hc2
    obtain ⟨i, hi⟩ := Option.isSome_iff_exists.mp (hsel c1 hc1).1
    obtain ⟨j, hj⟩ := Option.isSome_iff_exists.mp (hsel c2 hc2).1
    exact corrEntry_ok hi hj (hsel c1 hc1).2 (hsel c2 hc2).2
  have hM : corrMatrix t sel = Except.ok (sel.map (fun c1 => sel.map
      (fun c2 => corrEntryPairs (pairComplete (colValsD t c1)
        (colValsD t c2))))) := by
    unfold corrMatrix
    exact mapME_ok_fun (fun c1 hc1 =>
      mapME_ok_fun (fun c2 hc2 => hentry c1 hc1 c2 hc2))
  refine ⟨_, hM, ?_, ?_, ?_⟩
  all_goals
    have hidx : ∀ (p q : Nat) (hp : p < sel.length) (hq : q < sel.length),
        ((sel.map (fun c1 => sel.map (fun c2 => corrEntryPairs
          (pairComplete (colValsD t c1) (colValsD t c2))))).getD p []).getD q
            none =
          corrEntryPairs (pairComplete (colValsD t (sel.get ⟨p, hp⟩))
            (colValsD t (sel.get ⟨q, hq⟩))) := by
      intro p q hp hq
      have h1 : (sel.map (fun c1 => sel.map (fun c2 => corrEntryPairs
          (pairComplete (colValsD t c1) (colValsD t c2))))).getD p [] =
            sel.map (fun c2 => corrEntryPairs
              (pairComplete (colValsD t (sel.get ⟨p, hp⟩)) (colValsD t c2))) := by
        rw [List.getD_eq_getElem _ _ (by rw [List.length_map]; exact hp),
          List.getElem_map]
        rfl
      rw [h1, List.getD_eq_getElem _ _ (by rw [List.length_map]; exact hq),
        List.getElem_map]
      rfl
  · intro p q hp hq
    rw [hidx p q hp hq, hidx q p hq hp]
    exact (corrEntry_pure_symm _ _).symm
  · intro p hp e he
    rw [hidx p p hp hp] at he
    exact corrEntryPairs_diag _ e he
  · intro p hp hz q hq
    rw [List.getD_eq_getElem _ _ hp] at hz
    constructor
    · rw [hidx p q hp hq]
      exact corrEntryPairs_zerovar _ _ hz
    · rw [hidx q p hq hp]
      rw [corrEntry_pure_symm]
      exact corrEntryPairs_zerovar _ _ hz

/-- Witness for C6 on the two numeric bowling columns of `sampleTable`. -/
theorem C6_correlation_matrix_properties_witness :
    (∀ c ∈ ["Economy", "Average"],
      (idxOfCol sampleTable.cols c).isSome = true ∧
      (colValsD sampleTable c).all notStrB = true) ∧
    (∃ M, corrMatrix sampleTable ["Economy", "Average"] = Except.ok M ∧
      (∀ p q, p < (["Economy", "Average"] : List String).length →
        q < (["Economy", "Average"] : List String).length →
        (M.getD p []).getD q none = (M.getD q []).getD p none) ∧
      (∀ p, p < (["Economy", "Average"] : List String).length → ∀ e,
        (M.getD p []).getD p none = some e → corrDenote e = 1) ∧
      (∀ p, p < (["Economy", "Average"] : List String).length →
        svarOf (numsOf (colValsD sampleTable
          ((["Economy", "Average"] : List String).getD p ""))) = 0 →
        ∀ q, q < (["Economy", "Average"] : List String).length →
          (M.getD p []).getD q none = none ∧
          (M.getD q []).getD p none = none)) :=
  ⟨by decide,
    C6_correlation_matrix_properties sampleTable ["Economy", "Average"]
      (by decide)⟩
